import Mathlib

/-!
Verification development for the suno_extractor repository.

The Python sources are shallowly embedded: every definition below is a direct
translation of a function or code path of the repository (module and line
references are given in the doc comments).  Strings are modelled as Lean
strings or lists of characters, SQLite tables as Lean lists, the wall clock as
an explicit parameter, and browser observations (page heights, link counts,
DOM query results) as explicit inputs.
-/

namespace Suno

/-! ## Character and digit utilities

Helpers mirroring the fragments of Python string semantics the embedded
functions rely on: decimal digit parsing as done by `int(...)` on plain
digit tokens, and decimal rendering as done by `str(...)` / f-strings.
-/

/-- ASCII decimal digit test, as Python regex `\d` (ASCII subset). -/
def isDig (c : Char) : Bool :=
  '0' ≤ c && c ≤ '9'

/-- Numeric value of an ASCII digit character. -/
def digVal (c : Char) : Nat :=
  c.toNat - 48

/-- The ASCII digit character of a value below ten. -/
def digChar (d : Nat) : Char :=
  Char.ofNat (48 + d)

/-- Value of a digit string, most significant digit first. -/
def digitsVal (l : List Char) : Nat :=
  l.foldl (fun a c => a * 10 + digVal c) 0

/-- Fuel-driven decimal rendering; `fuel` bounds the recursion depth so the
definition stays structurally recursive (and kernel computable). -/
def natDigitsAux : Nat → Nat → List Char
  | 0, _ => []
  | fuel + 1, n =>
      if n < 10 then [digChar n]
      else natDigitsAux fuel (n / 10) ++ [digChar (n % 10)]

/-- Decimal rendering of a natural number, as Python `str` of an `int`. -/
def natDigits (n : Nat) : List Char :=
  natDigitsAux (n + 1) n

theorem natDigitsAux_congr : ∀ n f1 f2, n < f1 → n < f2 →
    natDigitsAux f1 n = natDigitsAux f2 n := by
  intro n
  induction n using Nat.strong_induction_on with
  | _ n ih =>
    intro f1 f2 h1 h2
    match f1, f2 with
    | g1 + 1, g2 + 1 =>
      rw [natDigitsAux, natDigitsAux]
      by_cases hn : n < 10
      · rw [if_pos hn, if_pos hn]
      · rw [if_neg hn, if_neg hn,
          ih (n / 10) (Nat.div_lt_self (by omega) (by omega)) g1 g2
            (by omega) (by omega)]

/-- Recurrence of the decimal rendering, independent of the fuel. -/
theorem natDigits_unfold (n : Nat) :
    natDigits n = if n < 10 then [digChar n]
      else natDigits (n / 10) ++ [digChar (n % 10)] := by
  rw [natDigits, natDigitsAux]
  by_cases hn : n < 10
  · rw [if_pos hn, if_pos hn]
  · rw [if_neg hn, if_neg hn, natDigits,
      natDigitsAux_congr (n / 10) n (n / 10 + 1) (by omega) (by omega)]

/-- Two digit zero padded rendering, as the Python format spec `02d`. -/
def padTwo (n : Nat) : List Char :=
  if n < 10 then '0' :: natDigits n else natDigits n

/-- Python `str.strip()`: drop whitespace from both ends
(`Char.isWhitespace` approximates the Python whitespace class; the embedded
claims never exercise exotic whitespace). -/
def pyStrip (l : List Char) : List Char :=
  ((l.dropWhile Char.isWhitespace).reverse.dropWhile Char.isWhitespace).reverse

/-- Model of Python `int(token)` restricted to the cases the repository can
meet on duration tokens: surrounding whitespace, an optional sign and a
nonempty run of ASCII digits.  Returns `none` where Python raises
`ValueError`.  (Python also accepts underscore separators and unicode
digits; no embedded claim exercises those.) -/
def pyIntCore : List Char → Option Int
  | [] => none
  | c :: rest =>
      if c = '-' then
        if rest ≠ [] && rest.all isDig then some (-(digitsVal rest : Int)) else none
      else if c = '+' then
        if rest ≠ [] && rest.all isDig then some ((digitsVal rest : Int)) else none
      else if (c :: rest).all isDig then some ((digitsVal (c :: rest) : Int)) else none

/-- Python `int(token)` strips the token before reading the digits. -/
def pyInt (s : List Char) : Option Int :=
  pyIntCore (pyStrip s)

/-- Split a character list at colons, as Python `str.split(':')`. -/
def splitColon : List Char → List (List Char)
  | [] => [[]]
  | c :: rest =>
      if c = ':' then [] :: splitColon rest
      else
        match splitColon rest with
        | [] => [[c]]
        | p :: ps => (c :: p) :: ps

/-! ## suno_utils.py : duration parsing and formatting -/

/-- Shared dispatch on the colon-split parts, the `len(parts)` cases common
to `suno_utils.parse_duration` and `SunoDatabase._parse_duration`: two parts
give `M*60+S`, three give `H*3600+M*60+S`, anything else (or an integer
parse failure, Python `ValueError`) gives 0. -/
def durFromParts : List (List Char) → Int
  | [a, b] =>
      (match pyInt a, pyInt b with
        | some m, some sec => m * 60 + sec
        | _, _ => 0)
  | [a, b, c] =>
      (match pyInt a, pyInt b, pyInt c with
        | some h, some m, some sec => h * 3600 + m * 60 + sec
        | _, _, _ => 0)
  | _ => 0

/-- Embedding of `suno_utils.parse_duration` (src/suno_utils.py lines 56-98):
empty input gives 0, the input is stripped, split at colons, and two or three
integer parts give seconds; any parse failure or other shape gives 0. -/
def parse_duration (s : List Char) : Int :=
  if s = [] then 0
  else durFromParts (splitColon (pyStrip s))

/-- Embedding of `suno_utils.format_duration` (src/suno_utils.py lines
101-127): negative input is clamped to 0, then rendered as `H:MM:SS` when
hours are positive and `M:SS` otherwise. -/
def format_duration (seconds : Int) : List Char :=
  let n : Nat := seconds.toNat
  let hours := n / 3600
  let minutes := (n % 3600) / 60
  let secs := n % 60
  if hours > 0 then
    natDigits hours ++ ':' :: (padTwo minutes ++ ':' :: padTwo secs)
  else
    natDigits minutes ++ ':' :: padTwo secs

/-- Embedding of `SunoDatabase._parse_duration` (src/suno_core.py lines
711-721): like `parse_duration` but without the emptiness test and the
strip of the whole string. -/
def coreParseDuration (s : List Char) : Int :=
  durFromParts (splitColon s)

/-! ## suno_core.py : song id extraction

`SunoDatabase.extract_song_id` (src/suno_core.py lines 284-288) searches the
URL for the regular expression `/song/([a-f0-9-]{36})` and returns the
captured group of the leftmost match.  The character class admits lowercase
hex digits and hyphens; the count is exact, so the match succeeds at a
position exactly when the literal `/song/` is followed by at least 36 class
characters, and the capture is those 36 characters.
-/

/-- Membership in the regex character class `[a-f0-9-]`. -/
def isHexHyphen (c : Char) : Bool :=
  c = '-' || ('a' ≤ c && c ≤ 'f') || ('0' ≤ c && c ≤ '9')

/-- Attempt to match `/song/([a-f0-9-]{36})` at the head of the list,
returning the captured 36 characters. -/
def matchSongIdHere (l : List Char) : Option (List Char) :=
  match l with
  | '/' :: 's' :: 'o' :: 'n' :: 'g' :: '/' :: rest =>
      let cand := rest.take 36
      if cand.length = 36 && cand.all isHexHyphen then some cand else none
  | _ => none

/-- Leftmost-match search for the song id pattern, as `re.search`. -/
def searchSongId (l : List Char) : Option (List Char) :=
  match l with
  | [] => none
  | _ :: rest =>
      match matchSongIdHere l with
      | some g => some g
      | none => searchSongId rest

/-- Embedding of `SunoDatabase.extract_song_id` (src/suno_core.py lines
284-288). -/
def extract_song_id (url : List Char) : Option (List Char) :=
  searchSongId url

/-! ## suno_core.py : the catalog store -/

/-- A transient extracted song record, the dictionary consumed by
`SunoDatabase.add_song`; `song.get(key, '')` defaults are the zero values of
the corresponding fields. -/
structure SongRecord where
  title : List Char := []
  artist : List Char := []
  description : List Char := []
  lyrics : List Char := []
  duration : List Char := []
  url : List Char := []
  image_url : List Char := []
  source_tab : List Char := []
  tags : List (List Char) := []
  liked : Bool := false
  disliked : Bool := false
deriving DecidableEq, Repr

/-- A row of the `songs` table (schema at src/suno_core.py lines 160-187).
Columns never written by `add_song` are `Option` valued; `REAL` columns
(`bpm`, `energy`) are abstracted to `Option Int` since every claim concerns
only their presence, never float arithmetic. -/
structure SongRow where
  id : List Char
  title : List Char
  artist : List Char
  description : List Char
  lyrics : List Char
  duration : List Char
  duration_seconds : Int
  url : List Char
  image_url : List Char
  local_audio_path : Option (List Char)
  local_cover_path : Option (List Char)
  source_tab : List Char
  suno_version : Option (List Char)
  created_at : Option (List Char)
  extracted_at : List Char
  downloaded_at : Option (List Char)
  file_size : Option Int
  audio_format : Option (List Char)
  bpm : Option Int
  musical_key : Option (List Char)
  energy : Option Int
  waveform_path : Option (List Char)
  is_liked : Bool
  is_disliked : Bool
deriving DecidableEq, Repr

/-- A row of the `playlist_songs` table (src/suno_core.py lines 236-247);
the autoincrement surrogate id is omitted, no code path reads it. -/
structure PlaylistSongRow where
  playlist_id : Nat
  song_id : List Char
  position : Int
  added_at : List Char
deriving DecidableEq, Repr

/-- Catalog state: the tables the claims touch.  `tags` holds the
`(song_id, tag)` pairs; `playlists` is abstracted to the set of existing
playlist ids (name, description and timestamps are never read by the claims
under verification). -/
structure DB where
  rows : List SongRow
  tags : List (List Char × List Char)
  playlists : List Nat
  playlist_songs : List PlaylistSongRow
deriving DecidableEq, Repr

/-- The empty catalog, as built by `_init_db` on a fresh file. -/
def emptyDB : DB :=
  ⟨[], [], [], []⟩

/-- Test from `add_song` (src/suno_core.py lines 303-307): a tag marks a
version when `tag.lower().startswith('v')`, i.e. it is nonempty and its
first character lowercases to `v`. -/
def isVersionTag (t : List Char) : Bool :=
  match t with
  | [] => false
  | c :: _ => c = 'v' || c = 'V'

/-- First version-like tag of a record, stored as `suno_version`
(src/suno_core.py lines 302-307). -/
def findVersionTag (tags : List (List Char)) : Option (List Char) :=
  match tags with
  | [] => none
  | t :: rest => if isVersionTag t then some t else findVersionTag rest

/-- The `songs` row written by the `INSERT OR REPLACE` of `add_song`
(src/suno_core.py lines 309-329).  Columns absent from the insert column
list become NULL in the replacement row. -/
def mkRow (song : SongRecord) (id : List Char) (now : List Char) : SongRow where
  id := id
  title := song.title
  artist := song.artist
  description := song.description
  lyrics := song.lyrics
  duration := song.duration
  duration_seconds := coreParseDuration song.duration
  url := song.url
  image_url := song.image_url
  local_audio_path := none
  local_cover_path := none
  source_tab := song.source_tab
  suno_version := findVersionTag song.tags
  created_at := none
  extracted_at := now
  downloaded_at := none
  file_size := none
  audio_format := none
  bpm := none
  musical_key := none
  energy := none
  waveform_path := none
  is_liked := song.liked
  is_disliked := song.disliked

/-- Whether an existing row conflicts with the insert for `song` under the
`songs` table constraints: primary key `id` or the UNIQUE `url` column.
SQLite `INSERT OR REPLACE` deletes every conflicting row before inserting. -/
def rowConflicts (id : List Char) (url : List Char) (q : SongRow) : Bool :=
  q.id = id || q.url = url

/-- Tag insertion loop of `add_song` (src/suno_core.py lines 331-339): each
truthy, non version-like tag is inserted with `INSERT OR IGNORE`, which is a
no-op when the UNIQUE `(song_id, tag)` pair already exists. -/
def addRecTags (acc : List (List Char × List Char)) (id : List Char) :
    List (List Char) → List (List Char × List Char)
  | [] => acc
  | t :: rest =>
      if t ≠ [] ∧ isVersionTag t = false ∧ (id, t) ∉ acc then
        addRecTags (acc ++ [(id, t)]) id rest
      else
        addRecTags acc id rest

/-- Embedding of `SunoDatabase.add_song` (src/suno_core.py lines 290-342).
The wall clock read `datetime.now().isoformat()` is the explicit `now`
argument.  Returns the Python result together with the successor state. -/
def add_song (db : DB) (song : SongRecord) (now : List Char) : Bool × DB :=
  match extract_song_id song.url with
  | none => (false, db)
  | some id =>
      let row := mkRow song id now
      let rows := (db.rows.filter (fun q => !rowConflicts id song.url q)) ++ [row]
      let tags := addRecTags db.tags id song.tags
      (true, { db with rows := rows, tags := tags })

/-- Batch import loop of `SunoDatabase.import_from_json`
(src/suno_core.py lines 344-356): fold `add_song` over the records, counting
successes.  `clock i` is the wall-clock reading of the i-th `add_song`
call. -/
def importAux (db : DB) : List SongRecord → (Nat → List Char) → Nat × DB
  | [], _ => (0, db)
  | song :: rest, clock =>
      let r := add_song db song (clock 0)
      let r2 := importAux r.2 rest (fun i => clock (i + 1))
      (if r.1 then r2.1 + 1 else r2.1, r2.2)

/-- Catalog state after importing a batch, the part of `import_from_json`
the claims quantify over. -/
def importBatch (db : DB) (batch : List SongRecord) (clock : Nat → List Char) : DB :=
  (importAux db batch clock).2

/-- Row lookup by id, as `SELECT * FROM songs WHERE id = ?`
(src/suno_core.py lines 407-421). -/
def lookupRow (db : DB) (id : List Char) : Option SongRow :=
  db.rows.find? (fun q => q.id = id)

/-- Embedding of `SunoDatabase.update_audio_info` (src/suno_core.py lines
358-405).  Each keyword argument updates its column only when truthy
(`bpm` also when 0, since its guard is `is not None`); the `UPDATE ... WHERE
id = ?` touches every row with the given id. -/
def applyAudioInfo (audio_path cover_path : Option (List Char)) (bpm : Option Int)
    (key : Option (List Char)) (waveform_path : Option (List Char))
    (file_size : Option Int) (audio_format : Option (List Char))
    (now : List Char) (q : SongRow) : SongRow :=
  let q := match audio_path with
    | some p => if p ≠ [] then { q with local_audio_path := some p, downloaded_at := some now } else q
    | none => q
  let q := match cover_path with
    | some p => if p ≠ [] then { q with local_cover_path := some p } else q
    | none => q
  let q := match bpm with
    | some b => { q with bpm := some b }
    | none => q
  let q := match key with
    | some k => if k ≠ [] then { q with musical_key := some k } else q
    | none => q
  let q := match waveform_path with
    | some w => if w ≠ [] then { q with waveform_path := some w } else q
    | none => q
  let q := match file_size with
    | some n => if n ≠ 0 then { q with file_size := some n } else q
    | none => q
  let q := match audio_format with
    | some f => if f ≠ [] then { q with audio_format := some f } else q
    | none => q
  q

/-- State transformer of `update_audio_info`: rows with the target id get
the truthy updates applied. -/
def update_audio_info (db : DB) (song_id : List Char)
    (audio_path cover_path : Option (List Char)) (bpm : Option Int)
    (key : Option (List Char)) (waveform_path : Option (List Char))
    (file_size : Option Int) (audio_format : Option (List Char))
    (now : List Char) : DB :=
  { db with rows := db.rows.map (fun q =>
      if q.id = song_id then
        applyAudioInfo audio_path cover_path bpm key waveform_path file_size audio_format now q
      else q) }

/-- Running maximum position of a playlist, as
`SELECT MAX(position) ... WHERE playlist_id = ?` combined with the Python
`(row['max_pos'] or 0)` (src/suno_core.py lines 577-583). -/
def maxPosFor (entries : List PlaylistSongRow) (pid : Nat) : Int :=
  match (entries.filter (fun e => e.playlist_id = pid)).map (fun e => e.position) with
  | [] => 0
  | p :: ps => ps.foldl max p

/-- Embedding of `SunoDatabase.add_to_playlist` (src/suno_core.py lines
572-593).  `_get_connection` (lines 274-282) never issues
`PRAGMA foreign_keys = ON`, and SQLite leaves foreign key enforcement OFF by
default, so the FOREIGN KEY clauses of the `playlist_songs` schema are
inert: the only constraint that can raise `sqlite3.IntegrityError` on this
insert is UNIQUE `(playlist_id, song_id)`. -/
def add_to_playlist (db : DB) (pid : Nat) (song_id : List Char) (now : List Char) :
    Bool × DB :=
  let position := maxPosFor db.playlist_songs pid + 1
  if db.playlist_songs.any (fun e => e.playlist_id = pid && e.song_id = song_id) then
    (false, db)
  else
    (true, { db with playlist_songs :=
        db.playlist_songs ++ [⟨pid, song_id, position, now⟩] })

/-! ## suno_extractor.py : the scroll loop

`SunoExtractor.scroll_to_load_all` (src/suno_extractor.py lines 157-249)
drives the browser and observes, on each iteration, the maximal scroll
height reported by the injected script and the number of `a[href*='/song/']`
elements.  The page is modelled as the sequence of these observations:
`page k` is the `(height, link count)` pair measured during the iteration
whose `scroll_count` equals `k`.  The initial `last_height` and `prev_count`
readings taken before the loop are the `initH`/`initC` arguments.  The
result is the final `scroll_count`, the number of completed iterations. -/

/-- Loop body of `scroll_to_load_all`: arguments are the remaining fuel
(`max_scrolls - scroll_count`), `scroll_count`, `last_height`, `prev_count`
and `no_change_count`.  A stalled iteration increments the stall counter and
breaks at five consecutive stalls before `scroll_count` is incremented; any
change resets the counter. -/
def scrollAux (page : Nat → Nat × Nat) : Nat → Nat → Nat → Nat → Nat → Nat
  | 0, sc, _, _, _ => sc
  | fuel + 1, sc, lh, pc, stall =>
      let h := (page sc).1
      let c := (page sc).2
      if h = lh && c = pc then
        if 5 ≤ stall + 1 then sc
        else scrollAux page fuel (sc + 1) h c (stall + 1)
      else scrollAux page fuel (sc + 1) h c 0

/-- Embedding of `scroll_to_load_all`, returning the number of completed
scroll iterations. -/
def scroll_to_load_all (page : Nat → Nat × Nat) (maxScrolls : Nat)
    (initH initC : Nat) : Nat :=
  scrollAux page maxScrolls 0 initH initC 0

/-! ## suno_extractor.py : pagination

`_extract_all_pages_for_tab` (src/suno_extractor.py lines 466-510) loops up
to `max_pages` (default 50), harvesting the current page and clicking a
"next page" control.  For the simulated paginator the claims quantify over,
a page is the list of song-detail URLs its records expose (the URL is the
identity, the only record part the claims concern), with `pages p` the page
shown while `page_index = p`.  `extract_all_songs` (lines 251-337) keeps, in
order, the URLs not yet in the session set `extracted_urls` and adds them to
it.  `_click_next_page` (lines 383-464) snapshots the URL set before the
click, advances the paginator, and reports `False` exactly when the URL and
the link set are unchanged; in the simulated single-page application the
browser URL never changes, so the test reduces to the set comparison. -/

/-- Boolean set equality of two URL lists, the `before_links == after_links`
comparison of `_click_next_page` (Python compares the snapshots as sets). -/
def sameURLSet (a b : List (List Char)) : Bool :=
  a.all (fun u => decide (u ∈ b)) && b.all (fun u => decide (u ∈ a))

/-- Harvest of one page against the session set, the per-element loop of
`extract_all_songs` (src/suno_extractor.py lines 326-336): returns the chunk
of fresh records in page order and the grown session set. -/
def harvest (extracted : List (List Char)) : List (List Char) →
    List (List Char) × List (List Char)
  | [] => ([], extracted)
  | u :: us =>
      if u ∈ extracted then harvest extracted us
      else
        let r := harvest (extracted ++ [u]) us
        (u :: r.1, r.2)

/-- Loop body of `_extract_all_pages_for_tab`: arguments are the remaining
fuel (`max_pages - page_index + 1`), `page_index`, the session set and the
accumulator `all_songs`.  Returns the accumulated songs, the final session
set, and (as instrumentation for the termination claim) the number of pages
harvested.  The final membership test `before_urls == self.extracted_urls`
is the safety valve of line 506. -/
def tabAux (pages : Nat → List (List Char)) : Nat → Nat → List (List Char) →
    List (List Char) → List (List Char) × List (List Char) × Nat
  | 0, _, ext, acc => (acc, ext, 0)
  | fuel + 1, p, ext, acc =>
      let hp := harvest ext (pages p)
      if hp.1 = [] then (acc, ext, 1)
      else
        let acc2 := acc ++ hp.1
        if sameURLSet (pages (p + 1)) (pages p) then (acc2, hp.2, 1)
        else if sameURLSet ext hp.2 then (acc2, hp.2, 1)
        else
          let r := tabAux pages fuel (p + 1) hp.2 acc2
          (r.1, r.2.1, r.2.2 + 1)

/-- Embedding of `_extract_all_pages_for_tab` over a simulated paginator:
`page_index` starts at 1, and the loop condition `page_index <= max_pages`
bounds the iteration count by `maxPages`. -/
def extract_all_pages_for_tab (pages : Nat → List (List Char)) (maxPages : Nat) :
    List (List Char) × List (List Char) × Nat :=
  tabAux pages maxPages 1 [] []

/-! ## suno_extractor.py : per-fragment field recovery

`_parse_song_element` (src/suno_extractor.py lines 512-646) runs
BeautifulSoup queries against one page fragment.  The fragment is modelled
by the outcome of each query the function performs: presence of descendant
elements and their stripped text.  A `none` models a query with no matching
element; a `some` carries the text (or attribute) of the matched element,
which Python then uses whether or not it is empty. -/

/-- Model of one candidate song fragment, by the results of the
BeautifulSoup queries `_parse_song_element` performs against it. -/
structure Fragment where
  /-- the fragment root is an `a` element -/
  isAnchor : Bool := false
  /-- `href` attribute of the fragment root (`none`: attribute missing) -/
  selfHref : Option (List Char) := none
  /-- `href` of the first descendant `a` whose `href` matches `/song/` -/
  descLink : Option (List Char) := none
  /-- text of the first `h1`-`h4` descendant -/
  headingText : Option (List Char) := none
  /-- text of the first element with a title-like class -/
  classTitleText : Option (List Char) := none
  /-- text of the first `span` with a song-name-like class -/
  spanSongNameText : Option (List Char) := none
  /-- stripped text of the link element used for the URL -/
  linkText : List Char := []
  /-- text of the first element with an artist-like class -/
  artistClassText : Option (List Char) := none
  /-- text of the first `span` with a by/user-like class -/
  artistSpanText : Option (List Char) := none
  /-- text of the first `a` whose `href` matches a profile link -/
  artistAtText : Option (List Char) := none
  /-- text of the first element with a description-like class -/
  descText : Option (List Char) := none
  /-- texts of all elements with tag/genre/style-like classes -/
  tagTexts : List (List Char) := []
  /-- like button: `none` no match, `some b` matched with active state `b` -/
  likeBtn : Option Bool := none
  /-- dislike button: `none` no match, `some b` matched with active state `b` -/
  dislikeBtn : Option Bool := none
  /-- `src` attribute of the first `img` descendant -/
  imgSrc : Option (List Char) := none
  /-- stripped texts of all `span`/`div`/`time` descendants, in order -/
  metaTexts : List (List Char) := []
deriving DecidableEq, Repr

/-- The dictionary `_parse_song_element` builds (src/suno_extractor.py lines
523-539), also the record shape `extract_detailed_info` mutates. -/
structure SongItem where
  index : Nat := 0
  title : List Char := []
  artist : List Char := []
  description : List Char := []
  lyrics : List Char := []
  tags : List (List Char) := []
  duration : List Char := []
  plays : List Char := []
  likes : List Char := []
  created_at : List Char := []
  url : List Char := []
  image_url : List Char := []
  liked : Bool := false
  disliked : Bool := false
  source_tab : List Char := []
deriving DecidableEq, Repr

/-- Substring test, as the Python `in` operator on strings. -/
def containsSub (pat : List Char) : List Char → Bool
  | [] => pat.isPrefixOf []
  | l@(_ :: rest) => pat.isPrefixOf l || containsSub pat rest

/-- First selector producing a truthy (nonempty) text, the title cascade of
lines 553-563. -/
def firstNonEmptyText : List (Option (List Char)) → Option (List Char)
  | [] => none
  | none :: rest => firstNonEmptyText rest
  | some t :: rest => if t ≠ [] then some t else firstNonEmptyText rest

/-- First selector producing an element at all (its text taken even when
empty), the artist cascade of lines 569-578. -/
def firstPresentText : List (Option (List Char)) → Option (List Char)
  | [] => none
  | none :: rest => firstPresentText rest
  | some t :: _ => some t

/-- The duration pattern `re.match(r'\d{1,2}:\d{2}', text)`: one or two
digits, a colon, two digits, anchored at the start. -/
def matchesDuration (l : List Char) : Bool :=
  match l with
  | a :: ':' :: c :: d :: _ => isDig a && isDig c && isDig d
  | a :: b :: ':' :: c :: d :: _ => isDig a && isDig b && isDig c && isDig d
  | _ => false

/-- Case-insensitive literal prefix test, for the `re.I` searches. -/
def litPrefixCase : List Char → List Char → Bool
  | [], _ => true
  | _ :: _, [] => false
  | p :: ps, c :: cs => p.toLower = c.toLower && litPrefixCase ps cs

/-- Scan for the literal (case-insensitively) without crossing a newline,
the `.*lit` tail of a `\d+.*lit` search (`.` does not match a newline). -/
def dotStarLit (lit : List Char) : List Char → Bool
  | [] => litPrefixCase lit []
  | l@(c :: rest) => litPrefixCase lit l || (c ≠ '\n' && dotStarLit lit rest)

/-- The searches `re.search(r'\d+.*play', text, re.I)` and the `like`
variant: some digit followed, on the same line, by the literal. -/
def numThenLit (lit : List Char) : List Char → Bool
  | [] => false
  | c :: rest => (isDig c && dotStarLit lit rest) || numThenLit lit rest

/-- Python `\s` whitespace class, approximated by `Char.isWhitespace`. -/
def isSpaceChar (c : Char) : Bool :=
  c.isWhitespace

/-- Match of `\d+\s*(day|week|month|year)` at the current position, given
that the leading digit has just been consumed. -/
def agoTail (l : List Char) : Bool :=
  let afterDigits := l.dropWhile isDig
  let afterWS := afterDigits.dropWhile isSpaceChar
  litPrefixCase ['d', 'a', 'y'] afterWS || litPrefixCase ['w', 'e', 'e', 'k'] afterWS ||
    litPrefixCase ['m', 'o', 'n', 't', 'h'] afterWS ||
    litPrefixCase ['y', 'e', 'a', 'r'] afterWS

/-- Match of `\d{4}-\d{2}-\d{2}` at the current position. -/
def dateHere (l : List Char) : Bool :=
  match l with
  | a :: b :: c :: d :: '-' :: e :: f :: '-' :: g :: h :: _ =>
      isDig a && isDig b && isDig c && isDig d && isDig e && isDig f && isDig g && isDig h
  | _ => false

/-- The search `re.search(r'\d{4}-\d{2}-\d{2}|\d+\s*(day|week|month|year)',
text, re.I)`. -/
def dateOrAgo : List Char → Bool
  | [] => false
  | c :: rest => dateHere (c :: rest) || (isDig c && agoTail rest) || dateOrAgo rest

/-- Metadata loop of lines 626-644: for each of the four patterns, every
`span`/`div`/`time` text matching it overwrites the corresponding field, so
the field ends as the last matching text (its zero value when none
matches); the four fields are updated independently. -/
def lastMatching (p : List Char → Bool) (ts : List (List Char)) : List Char :=
  ts.foldl (fun acc t => if p t then t else acc) []

/-- Link resolution of lines 541-547: the first descendant song link, else
the fragment itself when it is an anchor with a truthy `href` containing
`/song/`; `none` rejects the fragment. -/
def fragmentLink (f : Fragment) : Option (List Char) :=
  match f.descLink with
  | some h => some h
  | none =>
      if f.isAnchor then
        match f.selfHref with
        | some h => if h ≠ [] && containsSub ['/', 's', 'o', 'n', 'g', '/'] h then some h else none
        | none => none
      else none

/-- Embedding of `SunoExtractor._parse_song_element`
(src/suno_extractor.py lines 512-646). -/
def parse_song_element (f : Fragment) (idx : Nat) : Option SongItem :=
  match fragmentLink f with
  | none => none
  | some href =>
      let url := if href.head? = some '/' then
          ['h','t','t','p','s',':','/','/','s','u','n','o','.','c','o','m'] ++ href
        else href
      let title :=
        match firstNonEmptyText
            [f.headingText, f.classTitleText, f.spanSongNameText, some f.linkText] with
        | some t => t
        | none => ['S','o','n','g',' '] ++ natDigits idx
      let artist := (firstPresentText [f.artistClassText, f.artistSpanText, f.artistAtText]).getD []
      some
        { index := idx
          title := title
          artist := artist
          description := f.descText.getD []
          lyrics := []
          tags := f.tagTexts.filter (fun t => t ≠ [])
          duration := lastMatching matchesDuration f.metaTexts
          plays := lastMatching (numThenLit ['p', 'l', 'a', 'y']) f.metaTexts
          likes := lastMatching (numThenLit ['l', 'i', 'k', 'e']) f.metaTexts
          created_at := lastMatching dateOrAgo f.metaTexts
          url := url
          image_url := match f.imgSrc with
            | some s => if s ≠ [] then s else []
            | none => []
          liked := f.likeBtn = some true
          disliked := f.dislikeBtn = some true }

/-! ## suno_extractor.py : detail enrichment

`extract_detailed_info` (src/suno_extractor.py lines 648-798) visits each
record's detail page and merges what it finds back into the record.  The
DOM strategies that compute the found lyrics text and the description
candidates are browser queries; their outcomes are the explicit inputs
here: `lyricsText` is the final value of the `lyrics_text` accumulator
after the three strategies (empty when none matched), and `descCands` the
three description selector outcomes in order.  The claims under
verification concern only the lyrics and description updates (lines
747-763), which are embedded exactly. -/

/-- Lyrics update of lines 747-749: overwrite only when the found text is
truthy. -/
def enrichLyrics (s : SongItem) (lyricsText : List Char) : SongItem :=
  if lyricsText ≠ [] then { s with lyrics := lyricsText } else s

/-- Description update of lines 752-763: the first present selector whose
text is strictly longer than the current description replaces it. -/
def enrichDescription (s : SongItem) : List (Option (List Char)) → SongItem
  | [] => s
  | none :: rest => enrichDescription s rest
  | some t :: rest =>
      if s.description.length < t.length then { s with description := t }
      else enrichDescription s rest

/-- Per-record lyrics/description merge of `extract_detailed_info`. -/
def enrichOne (s : SongItem) (lyricsText : List Char)
    (descCands : List (Option (List Char))) : SongItem :=
  enrichDescription (enrichLyrics s lyricsText) descCands

/-! ## Specification-side pattern definitions

Two definitions follow the wording of the specification rather than the
code, for comparison against `extract_song_id`: the canonical 8-4-4-4-12
UUID pattern the spec describes, and the 36-characters-of-hex-or-hyphen
pattern the code actually implements. -/

/-- Lowercase hex digit, the spec's `[a-f0-9]` group alphabet. -/
def isLHex (c : Char) : Bool :=
  ('a' ≤ c && c ≤ 'f') || ('0' ≤ c && c ≤ '9')

/-- Consume a run of exactly `n` lowercase hex digits. -/
def hexRun (n : Nat) (l : List Char) : Option (List Char) :=
  if (l.take n).length = n && (l.take n).all isLHex then some (l.drop n) else none

/-- Consume a hyphen. -/
def expectDash : List Char → Option (List Char)
  | '-' :: r => some r
  | _ => none

/-- Spec wording: an identity is a token in 8-4-4-4-12 lowercase hex groups
separated by hyphens. -/
def uuidHere (l : List Char) : Bool :=
  ((((((((hexRun 8 l).bind expectDash).bind (hexRun 4)).bind expectDash).bind
      (hexRun 4)).bind expectDash).bind (hexRun 4)).bind expectDash).bind
      (hexRun 12) |>.isSome

/-- Spec wording (claim C3): the string contains, anywhere, `/song/`
followed by an 8-4-4-4-12 lowercase hex token. -/
def hasCanonicalUuidPattern : List Char → Bool
  | [] => false
  | c :: rest =>
      (match c :: rest with
        | '/' :: 's' :: 'o' :: 'n' :: 'g' :: '/' :: tail => uuidHere tail
        | _ => false) || hasCanonicalUuidPattern rest

/-- The pattern the code implements: the string contains, anywhere, `/song/`
followed by at least 36 characters drawn from lowercase hex digits and
hyphens. -/
def hasSongIdPattern : List Char → Bool
  | [] => false
  | l@(_ :: rest) => (matchSongIdHere l).isSome || hasSongIdPattern rest

/-! ## Digit and parsing lemmas -/

theorem isDig_digChar {d : Nat} (h : d < 10) : isDig (digChar d) = true := by
  interval_cases d <;> decide

theorem digVal_digChar {d : Nat} (h : d < 10) : digVal (digChar d) = d := by
  interval_cases d <;> decide

theorem natDigits_all_isDig (n : Nat) : ∀ c ∈ natDigits n, isDig c = true := by
  induction n using Nat.strong_induction_on with
  | _ n ih =>
    rw [natDigits_unfold]
    split
    · rename_i h
      intro c hc
      simp only [List.mem_singleton] at hc
      exact hc ▸ isDig_digChar h
    · intro c hc
      rw [List.mem_append] at hc
      rcases hc with hc | hc
      · exact ih (n / 10) (Nat.div_lt_self (by omega) (by omega)) c hc
      · simp only [List.mem_singleton] at hc
        exact hc ▸ isDig_digChar (Nat.mod_lt n (by omega))

theorem digitsVal_append_one (xs : List Char) (c : Char) :
    digitsVal (xs ++ [c]) = digitsVal xs * 10 + digVal c := by
  simp [digitsVal, List.foldl_append]

theorem digitsVal_natDigits (n : Nat) : digitsVal (natDigits n) = n := by
  induction n using Nat.strong_induction_on with
  | _ n ih =>
    rw [natDigits_unfold]
    split
    · rename_i h
      simp [digitsVal, digVal_digChar h]
    · rename_i h
      rw [digitsVal_append_one, ih (n / 10) (Nat.div_lt_self (by omega) (by omega)),
        digVal_digChar (Nat.mod_lt n (by omega))]
      omega

theorem natDigits_ne_nil (n : Nat) : natDigits n ≠ [] := by
  rw [natDigits_unfold]
  split <;> simp

theorem digitsVal_zero_cons (l : List Char) : digitsVal ('0' :: l) = digitsVal l := by
  simp [digitsVal, digVal]

theorem padTwo_all_isDig (n : Nat) : ∀ c ∈ padTwo n, isDig c = true := by
  rw [padTwo]
  split
  · intro c hc
    rw [List.mem_cons] at hc
    rcases hc with hc | hc
    · subst hc; decide
    · exact natDigits_all_isDig n c hc
  · exact natDigits_all_isDig n

theorem padTwo_ne_nil (n : Nat) : padTwo n ≠ [] := by
  rw [padTwo]
  split
  · simp
  · exact natDigits_ne_nil n

theorem digitsVal_padTwo (n : Nat) : digitsVal (padTwo n) = n := by
  rw [padTwo]
  split
  · rw [digitsVal_zero_cons, digitsVal_natDigits]
  · exact digitsVal_natDigits n

theorem isDig_not_special {c : Char} (h : isDig c = true) :
    c.isWhitespace = false ∧ c ≠ ':' ∧ c ≠ '-' ∧ c ≠ '+' := by
  refine ⟨?_, ?_, ?_, ?_⟩
  · have h1 : c ≠ ' ' := fun hc => by subst hc; exact absurd h (by decide)
    have h2 : c ≠ '\t' := fun hc => by subst hc; exact absurd h (by decide)
    have h3 : c ≠ '\r' := fun hc => by subst hc; exact absurd h (by decide)
    have h4 : c ≠ '\n' := fun hc => by subst hc; exact absurd h (by decide)
    simp [Char.isWhitespace, h1, h2, h3, h4]
  · exact fun hc => by subst hc; exact absurd h (by decide)
  · exact fun hc => by subst hc; exact absurd h (by decide)
  · exact fun hc => by subst hc; exact absurd h (by decide)

theorem dropWhile_eq_self_of_all {p : Char → Bool} {l : List Char}
    (h : ∀ c ∈ l, p c = false) : l.dropWhile p = l := by
  cases l with
  | nil => rfl
  | cons a l =>
    rw [List.dropWhile_cons, h a (by simp)]
    simp

theorem pyStrip_eq_self {l : List Char} (h : ∀ c ∈ l, c.isWhitespace = false) :
    pyStrip l = l := by
  unfold pyStrip
  rw [dropWhile_eq_self_of_all h, dropWhile_eq_self_of_all (by simpa using h)]
  simp

theorem pyInt_digits {l : List Char} (hne : l ≠ []) (hall : ∀ c ∈ l, isDig c = true) :
    pyInt l = some ((digitsVal l : Int)) := by
  have hws : ∀ c ∈ l, c.isWhitespace = false := fun c hc => (isDig_not_special (hall c hc)).1
  unfold pyInt
  rw [pyStrip_eq_self hws]
  cases l with
  | nil => exact absurd rfl hne
  | cons c rest =>
    have hc := isDig_not_special (hall c (by simp))
    rw [pyIntCore, if_neg hc.2.2.1, if_neg hc.2.2.2,
      if_pos (List.all_eq_true.2 hall)]


theorem splitColon_no_colon {l : List Char} (h : ':' ∉ l) : splitColon l = [l] := by
  induction l with
  | nil => rfl
  | cons c rest ih =>
    rw [splitColon, if_neg (by intro hc; exact h (hc ▸ List.mem_cons_self c rest)),
      ih (fun hm => h (List.mem_cons_of_mem c hm))]

theorem splitColon_append {a : List Char} (b : List Char) (h : ':' ∉ a) :
    splitColon (a ++ ':' :: b) = a :: splitColon b := by
  induction a with
  | nil => simp [splitColon]
  | cons c rest ih =>
    rw [List.cons_append, splitColon,
      if_neg (by intro hc; exact h (hc ▸ List.mem_cons_self c rest)),
      ih (fun hm => h (List.mem_cons_of_mem c hm))]

theorem colon_ws_false : (':' : Char).isWhitespace = false := by decide

/-- Two digit tokens around one colon parse to minutes and seconds. -/
theorem parse_duration_two {a b : List Char} (hane : a ≠ []) (hbne : b ≠ [])
    (ha : ∀ c ∈ a, isDig c = true) (hb : ∀ c ∈ b, isDig c = true) :
    parse_duration (a ++ ':' :: b) = ((digitsVal a * 60 + digitsVal b : Nat) : Int) := by
  have hnca : ':' ∉ a := fun hm => absurd rfl (isDig_not_special (ha _ hm)).2.1
  have hncb : ':' ∉ b := fun hm => absurd rfl (isDig_not_special (hb _ hm)).2.1
  have hws : ∀ c ∈ a ++ ':' :: b, c.isWhitespace = false := by
    intro c hc
    rw [List.mem_append, List.mem_cons] at hc
    rcases hc with hc | hc | hc
    · exact (isDig_not_special (ha _ hc)).1
    · exact hc ▸ colon_ws_false
    · exact (isDig_not_special (hb _ hc)).1
  rw [parse_duration, if_neg (by cases a <;> simp), pyStrip_eq_self hws,
    splitColon_append _ hnca, splitColon_no_colon hncb]
  simp only [durFromParts, pyInt_digits hane ha, pyInt_digits hbne hb]
  push_cast
  ring

/-- Three digit tokens around two colons parse to hours, minutes, seconds. -/
theorem parse_duration_three {a b c : List Char} (hane : a ≠ []) (hbne : b ≠ [])
    (hcne : c ≠ []) (ha : ∀ x ∈ a, isDig x = true) (hb : ∀ x ∈ b, isDig x = true)
    (hc : ∀ x ∈ c, isDig x = true) :
    parse_duration (a ++ ':' :: (b ++ ':' :: c)) =
      ((digitsVal a * 3600 + digitsVal b * 60 + digitsVal c : Nat) : Int) := by
  have hnca : ':' ∉ a := fun hm => absurd rfl (isDig_not_special (ha _ hm)).2.1
  have hncb : ':' ∉ b := fun hm => absurd rfl (isDig_not_special (hb _ hm)).2.1
  have hncc : ':' ∉ c := fun hm => absurd rfl (isDig_not_special (hc _ hm)).2.1
  have hws : ∀ x ∈ a ++ ':' :: (b ++ ':' :: c), x.isWhitespace = false := by
    intro x hx
    rw [List.mem_append, List.mem_cons, List.mem_append, List.mem_cons] at hx
    rcases hx with hx | hx | hx | hx | hx
    · exact (isDig_not_special (ha _ hx)).1
    · exact hx ▸ colon_ws_false
    · exact (isDig_not_special (hb _ hx)).1
    · exact hx ▸ colon_ws_false
    · exact (isDig_not_special (hc _ hx)).1
  rw [parse_duration, if_neg (by cases a <;> simp), pyStrip_eq_self hws,
    splitColon_append _ hnca, splitColon_append _ hncb, splitColon_no_colon hncc]
  simp only [durFromParts, pyInt_digits hane ha, pyInt_digits hbne hb,
    pyInt_digits hcne hc]
  push_cast
  ring

/-- The canonical rendering always parses back to its own value. -/
theorem parse_format_duration (n : Nat) :
    parse_duration (format_duration (n : Int)) = (n : Int) := by
  have htn : ((n : Int)).toNat = n := Int.toNat_natCast n
  rw [format_duration]
  rw [htn]
  by_cases hh : n / 3600 > 0
  · rw [if_pos hh]
    have h3 := parse_duration_three (natDigits_ne_nil (n / 3600))
      (padTwo_ne_nil (n % 3600 / 60)) (padTwo_ne_nil (n % 60))
      (natDigits_all_isDig (n / 3600)) (padTwo_all_isDig (n % 3600 / 60))
      (padTwo_all_isDig (n % 60))
    rw [h3, digitsVal_natDigits, digitsVal_padTwo, digitsVal_padTwo]
    congr 1
    omega
  · rw [if_neg hh]
    rw [parse_duration_two (natDigits_ne_nil (n % 3600 / 60)) (padTwo_ne_nil (n % 60))
      (natDigits_all_isDig (n % 3600 / 60)) (padTwo_all_isDig (n % 60)),
      digitsVal_natDigits, digitsVal_padTwo]
    congr 1
    omega

/-- Claim C9: for every duration string in `MM:SS` or `H:MM:SS` form with
in-range minute/second components, `parse_duration` yields the corresponding
number of seconds, and `format_duration` of that value reproduces a
canonical rendering that parses back to the same number of seconds. -/
theorem c9_duration_round_trip :
    (∀ a b : List Char, a ≠ [] → b ≠ [] → (∀ x ∈ a, isDig x = true) →
      (∀ x ∈ b, isDig x = true) → digitsVal b < 60 →
      parse_duration (a ++ ':' :: b) = ((digitsVal a * 60 + digitsVal b : Nat) : Int) ∧
      parse_duration (format_duration (parse_duration (a ++ ':' :: b))) =
        parse_duration (a ++ ':' :: b)) ∧
    (∀ a b c : List Char, a ≠ [] → b ≠ [] → c ≠ [] → (∀ x ∈ a, isDig x = true) →
      (∀ x ∈ b, isDig x = true) → (∀ x ∈ c, isDig x = true) →
      digitsVal b < 60 → digitsVal c < 60 →
      parse_duration (a ++ ':' :: (b ++ ':' :: c)) =
        ((digitsVal a * 3600 + digitsVal b * 60 + digitsVal c : Nat) : Int) ∧
      parse_duration (format_duration (parse_duration (a ++ ':' :: (b ++ ':' :: c)))) =
        parse_duration (a ++ ':' :: (b ++ ':' :: c))) := by
  constructor
  · intro a b hane hbne ha hb _hlt
    have hp := parse_duration_two hane hbne ha hb
    refine ⟨hp, ?_⟩
    rw [hp, parse_format_duration]
  · intro a b c hane hbne hcne ha hb hc _hltb _hltc
    have hp := parse_duration_three hane hbne hcne ha hb hc
    refine ⟨hp, ?_⟩
    rw [hp, parse_format_duration]

/-- Witness for C9 at the representative inputs of the specification:
`3:24`, `1:05:30` and `0:30`. -/
theorem c9_duration_round_trip_witness :
    parse_duration (['3'] ++ ':' :: ['2', '4']) = 204 ∧
    parse_duration (format_duration
      (parse_duration (['3'] ++ ':' :: ['2', '4']))) =
      parse_duration (['3'] ++ ':' :: ['2', '4']) ∧
    parse_duration (['1'] ++ ':' :: (['0', '5'] ++ ':' :: ['3', '0'])) = 3930 ∧
    parse_duration (['0'] ++ ':' :: ['3', '0']) = 30 := by
  have h1 := c9_duration_round_trip.1 ['3'] ['2', '4'] (by decide) (by decide)
    (by decide) (by decide) (by decide)
  have h2 := c9_duration_round_trip.2 ['1'] ['0', '5'] ['3', '0'] (by decide)
    (by decide) (by decide) (by decide) (by decide) (by decide) (by decide) (by decide)
  have h3 := c9_duration_round_trip.1 ['0'] ['3', '0'] (by decide) (by decide)
    (by decide) (by decide) (by decide)
  exact ⟨by rw [h1.1]; decide, h1.2, by rw [h2.1]; decide, by rw [h3.1]; decide⟩

/-! ## Identity extraction lemmas (C3) -/

theorem searchSongId_isSome_eq (l : List Char) :
    (searchSongId l).isSome = hasSongIdPattern l := by
  induction l with
  | nil => rfl
  | cons c rest ih =>
    rw [searchSongId, hasSongIdPattern]
    cases h : matchSongIdHere (c :: rest) with
    | some g => simp [h]
    | none => simp [h, ih]

theorem extract_song_id_none_of_no_pattern {url : List Char}
    (h : hasSongIdPattern url = false) : extract_song_id url = none := by
  have hs := searchSongId_isSome_eq url
  rw [h] at hs
  rw [extract_song_id]
  cases hc : searchSongId url with
  | none => rfl
  | some g => rw [hc] at hs; exact absurd hs (by simp)

/-- Claim C3 (amended): the pattern the code enforces is `/song/` followed by
36 characters drawn from lowercase hex digits and hyphens, not the stricter
8-4-4-4-12 grouping.  A record whose URL lacks this pattern is rejected by
`add_song` with result `false` and the catalog is left untouched, and any
string containing the pattern anywhere yields an extractable identity. -/
theorem c3_identity_invariant (url : List Char) (rec : SongRecord) (db : DB)
    (now : List Char) (hrec : rec.url = url) :
    (hasSongIdPattern url = false → add_song db rec now = (false, db)) ∧
    (hasSongIdPattern url = true → (extract_song_id url).isSome = true) := by
  constructor
  · intro h
    rw [add_song, hrec, extract_song_id_none_of_no_pattern h]
  · intro h
    rw [extract_song_id, searchSongId_isSome_eq, h]

/-- Witness for C3 at a URL with no song id pattern and a URL with one. -/
theorem c3_identity_invariant_witness :
    add_song emptyDB
      { url := ['h','t','t','p','s',':','/','/','s','u','n','o','.','c','o','m','/','m','e'] }
      ['T'] = (false, emptyDB) ∧
    (extract_song_id
      (['/','s','o','n','g','/'] ++ List.replicate 36 'a')).isSome = true := by
  constructor
  · exact (c3_identity_invariant
      ['h','t','t','p','s',':','/','/','s','u','n','o','.','c','o','m','/','m','e']
      { url := ['h','t','t','p','s',':','/','/','s','u','n','o','.','c','o','m','/','m','e'] }
      emptyDB ['T'] rfl).1 (by decide)
  · exact (c3_identity_invariant (['/','s','o','n','g','/'] ++ List.replicate 36 'a')
      { url := ['/','s','o','n','g','/'] ++ List.replicate 36 'a' }
      emptyDB ['T'] rfl).2 (by decide)

/-- A URL whose `/song/` run is 36 letters `a` with no hyphens: it has no
8-4-4-4-12 token, yet the code accepts it. -/
def c3BadUrl : List Char :=
  ['h','t','t','p','s',':','/','/','s','u','n','o','.','c','o','m','/','s','o','n','g','/']
    ++ List.replicate 36 'a'

/-- Counterexample to C3 as stated: `c3BadUrl` does not contain the
canonical 8-4-4-4-12 pattern the claim names, yet `add_song` accepts the
record, writes it, and it appears in the catalog. -/
theorem c3_counterexample :
    hasCanonicalUuidPattern c3BadUrl = false ∧
    (add_song emptyDB { url := c3BadUrl } ['T']).1 = true ∧
    lookupRow (add_song emptyDB { url := c3BadUrl } ['T']).2
      (List.replicate 36 'a') ≠ none := by
  refine ⟨by decide, by decide, by decide⟩

/-! ## Scroll loop lemmas (C5) -/

/-- The loop condition of the stall test, as a falsity from a changed
observation. -/
theorem scroll_cond_false {page : Nat → Nat × Nat} {sc lh pc : Nat}
    (hfresh : page sc ≠ (lh, pc)) :
    ¬(((page sc).1 = lh && (page sc).2 = pc) = true) := by
  simp only [Bool.and_eq_true, decide_eq_true_eq]
  rintro ⟨ha, hb⟩
  exact hfresh (Prod.ext_iff.mpr ⟨ha, hb⟩)

/-- While every observation differs from the previous one, the loop never
stalls and consumes all its fuel, one completed iteration per unit. -/
theorem scrollAux_fresh (page : Nat → Nat × Nat) :
    ∀ fuel sc lh pc stall, page sc ≠ (lh, pc) →
      (∀ i, sc ≤ i → page (i + 1) ≠ page i) →
      scrollAux page fuel sc lh pc stall = sc + fuel := by
  intro fuel
  induction fuel with
  | zero => intro sc _ _ _ _ _; rfl
  | succ fuel ih =>
    intro sc lh pc stall hfresh hstep
    rw [scrollAux, if_neg (scroll_cond_false hfresh)]
    rw [ih (sc + 1) (page sc).1 (page sc).2 0 (by simpa using hstep sc (le_refl sc))
      (fun i hi => hstep i (by omega))]
    omega

/-- Once the observations are constant and match the previous reading, the
loop stalls five times and stops, completing `4 - stall` more iterations. -/
theorem scrollAux_stalled (page : Nat → Nat × Nat) :
    ∀ fuel sc lh pc stall, (∀ i, sc ≤ i → page i = page sc) →
      page sc = (lh, pc) → stall ≤ 4 → 4 - stall < fuel →
      scrollAux page fuel sc lh pc stall = sc + (4 - stall) := by
  intro fuel
  induction fuel with
  | zero => intro sc lh pc stall _ _ _ h; omega
  | succ fuel ih =>
    intro sc lh pc stall hconst hmatch hstall _hfuel
    have hb : (((page sc).1 = lh && (page sc).2 = pc) = true) := by
      rw [hmatch]
      simp
    rw [scrollAux, if_pos hb]
    by_cases hs : 5 ≤ stall + 1
    · rw [if_pos hs]
      omega
    · rw [if_neg hs]
      have hnext : page (sc + 1) = page sc := hconst (sc + 1) (by omega)
      rw [ih (sc + 1) (page sc).1 (page sc).2 (stall + 1)
        (fun i hi => by rw [hconst i (by omega), hnext])
        (by rw [hnext]) (by omega) (by omega)]
      omega

/-- Advance past a known-fresh prefix of observations: after the iteration
observing `page m`, the state holds `page m` with a reset stall counter. -/
theorem scrollAux_advance (page : Nat → Nat × Nat) (m : Nat) :
    ∀ fuel sc lh pc stall, sc ≤ m → m - sc < fuel →
      page sc ≠ (lh, pc) →
      (∀ j, sc < j → j ≤ m → page j ≠ page (j - 1)) →
      scrollAux page fuel sc lh pc stall =
        scrollAux page (fuel - (m + 1 - sc)) (m + 1) (page m).1 (page m).2 0 := by
  intro fuel
  induction fuel with
  | zero => intro sc _ _ _ _ h; omega
  | succ fuel ih =>
    intro sc lh pc stall hscm _hfuel hfresh hsteps
    rw [scrollAux, if_neg (scroll_cond_false hfresh)]
    by_cases hm : sc = m
    · subst hm
      have heq : fuel + 1 - (sc + 1 - sc) = fuel := by omega
      rw [heq]
    · have hlt : sc < m := by omega
      rw [ih (sc + 1) (page sc).1 (page sc).2 0 (by omega) (by omega)
        (by simpa using hsteps (sc + 1) (by omega) (by omega))
        (fun j hj1 hj2 => hsteps j (by omega) hj2)]
      congr 1
      omega

/-- Claim C5: the scroll loop always terminates.  On a simulated page whose
height grows on every observation it completes exactly `maxScrolls`
iterations; and when the observations freeze after a fresh prefix ending at
observation `m`, five consecutive stalled iterations stop the loop early,
after `m + 5` completed iterations. -/
theorem c5_scroll_termination (page : Nat → Nat × Nat) (maxScrolls initH initC : Nat) :
    ((initH < (page 0).1 → (∀ i, (page i).1 < (page (i + 1)).1) →
      scroll_to_load_all page maxScrolls initH initC = maxScrolls)) ∧
    (∀ m, page 0 ≠ (initH, initC) →
      (∀ j, 0 < j → j ≤ m → page j ≠ page (j - 1)) →
      (∀ i, m ≤ i → page i = page m) →
      m + 5 < maxScrolls →
      scroll_to_load_all page maxScrolls initH initC = m + 5) := by
  constructor
  · intro h0 hgrow
    rw [scroll_to_load_all]
    rw [scrollAux_fresh page maxScrolls 0 initH initC 0
      (by intro he; rw [he] at h0; exact absurd h0 (by omega))
      (by
        intro i _ he
        have hg := hgrow i
        rw [he] at hg
        exact absurd hg (by omega))]
    omega
  · intro m h0 hsteps hconst hbound
    rw [scroll_to_load_all]
    rw [scrollAux_advance page m maxScrolls 0 initH initC 0 (by omega) (by omega) h0
      hsteps]
    rw [scrollAux_stalled page (maxScrolls - (m + 1 - 0)) (m + 1) (page m).1 (page m).2 0
      (by
        intro i hi
        rw [hconst i (by omega), hconst (m + 1) (by omega)])
      (by rw [hconst (m + 1) (by omega)]) (by omega) (by omega)]

/-- Witness for C5: a page growing on every iteration runs all 600 default
iterations; a page that changes once and then freezes stops after six. -/
theorem c5_scroll_termination_witness :
    scroll_to_load_all (fun i => (i + 1, 0)) 600 0 0 = 600 ∧
    scroll_to_load_all (fun i => if i = 0 then (1, 1) else (2, 2)) 600 0 0 = 6 := by
  constructor
  · exact (c5_scroll_termination (fun i => (i + 1, 0)) 600 0 0).1 (by omega)
      (fun i => by omega)
  · exact (c5_scroll_termination (fun i => if i = 0 then (1, 1) else (2, 2)) 600 0 0).2
      1 (by decide)
      (by intro j hj1 hj2; interval_cases j; decide)
      (by
        intro i hi
        have h1 : ¬(i = 0) := by omega
        simp [h1])
      (by omega)



/-! ## Detail enrichment lemmas (C6) -/

theorem enrichLyrics_description (s : SongItem) (lt : List Char) :
    (enrichLyrics s lt).description = s.description := by
  rw [enrichLyrics]
  split <;> rfl

theorem enrichDescription_lyrics (dc : List (Option (List Char))) :
    ∀ s : SongItem, (enrichDescription s dc).lyrics = s.lyrics := by
  induction dc with
  | nil => intro s; rfl
  | cons c rest ih =>
    intro s
    match c with
    | none => exact ih s
    | some t =>
      rw [enrichDescription]
      split
      · rfl
      · exact ih s

theorem enrichDescription_mono (dc : List (Option (List Char))) :
    ∀ s : SongItem, (enrichDescription s dc).description = s.description ∨
      s.description.length < (enrichDescription s dc).description.length := by
  induction dc with
  | nil => intro s; exact Or.inl rfl
  | cons c rest ih =>
    intro s
    match c with
    | none => exact ih s
    | some t =>
      rw [enrichDescription]
      split
      · rename_i hlt
        exact Or.inr hlt
      · exact ih s

/-- Claim C6 (amended): enrichment overwrites the lyrics field only when the
newly found detail-page text is non-empty, and the description field is
never replaced by a value that is not strictly longer; the lyrics field,
however, has no such length guard and may be replaced by a shorter
non-empty text. -/
theorem c6_enrichment_no_shrink (s : SongItem) (lt : List Char)
    (dc : List (Option (List Char))) :
    (lt = [] → (enrichOne s lt dc).lyrics = s.lyrics) ∧
    ((enrichOne s lt dc).lyrics = lt ∨ (enrichOne s lt dc).lyrics = s.lyrics) ∧
    ((enrichOne s lt dc).description = s.description ∨
      s.description.length < (enrichOne s lt dc).description.length) := by
  refine ⟨?_, ?_, ?_⟩
  · intro h
    rw [enrichOne, enrichDescription_lyrics, enrichLyrics, if_neg (by simp [h])]
  · rw [enrichOne, enrichDescription_lyrics, enrichLyrics]
    split
    · exact Or.inl rfl
    · exact Or.inr rfl
  · have hd := enrichDescription_mono dc (enrichLyrics s lt)
    rw [enrichLyrics_description] at hd
    exact hd

/-- A record carrying ten characters of lyrics, for the counterexample. -/
def c6Song : SongItem :=
  { lyrics := ['0', '1', '2', '3', '4', '5', '6', '7', '8', '9'] }

/-- Counterexample to C6 as stated: a non-empty five character detail-page
text replaces the ten character lyrics the record already held, so lyrics
are replaced by a strictly shorter value. -/
theorem c6_counterexample :
    (enrichOne c6Song ['s', 'h', 'o', 'r', 't'] []).lyrics = ['s', 'h', 'o', 'r', 't'] ∧
    (enrichOne c6Song ['s', 'h', 'o', 'r', 't'] []).lyrics.length <
      c6Song.lyrics.length := by
  exact ⟨rfl, by decide⟩

/-- Witness for C6 at an empty found text and one description candidate. -/
theorem c6_enrichment_no_shrink_witness :
    (enrichOne c6Song [] [some ['a']]).lyrics = c6Song.lyrics ∧
    ((enrichOne c6Song [] [some ['a']]).description = c6Song.description ∨
      c6Song.description.length <
        (enrichOne c6Song [] [some ['a']]).description.length) := by
  exact ⟨(c6_enrichment_no_shrink c6Song [] [some ['a']]).1 rfl,
    (c6_enrichment_no_shrink c6Song [] [some ['a']]).2.2⟩

/-! ## Field recovery lemmas (C7) -/

theorem lastMatching_nil {p : List Char → Bool} {ts : List (List Char)}
    (h : ∀ t ∈ ts, p t = false) : lastMatching p ts = [] := by
  have aux : ∀ (l : List (List Char)) (acc : List Char), (∀ t ∈ l, p t = false) →
      l.foldl (fun acc t => if p t then t else acc) acc = acc := by
    intro l
    induction l with
    | nil => intro acc _; rfl
    | cons t rest ih =>
      intro acc hall
      rw [List.foldl_cons, if_neg (by rw [hall t (by simp)]; simp)]
      exact ih acc (fun u hu => hall u (List.mem_cons_of_mem t hu))
  exact aux ts [] h

/-- Claim C7 (amended): `parse_song_element` returns `none` exactly when the
fragment yields no song-detail link; when it returns a record it is total
(never raises), and every field whose selector strategies produced no match
is left at its zero value - except the title, which falls back to the
placeholder `Song <index>` rather than the empty string. -/
theorem c7_parse_song_element (f : Fragment) (idx : Nat) :
    (parse_song_element f idx = none ↔ fragmentLink f = none) ∧
    (∀ r, parse_song_element f idx = some r →
      r.lyrics = [] ∧
      (firstNonEmptyText [f.headingText, f.classTitleText, f.spanSongNameText,
          some f.linkText] = none →
        r.title = ['S', 'o', 'n', 'g', ' '] ++ natDigits idx) ∧
      (f.artistClassText = none → f.artistSpanText = none → f.artistAtText = none →
        r.artist = []) ∧
      (f.descText = none → r.description = []) ∧
      (f.tagTexts.filter (fun t => t ≠ []) = [] → r.tags = []) ∧
      (f.likeBtn = none → r.liked = false) ∧
      (f.dislikeBtn = none → r.disliked = false) ∧
      (f.imgSrc = none → r.image_url = []) ∧
      ((∀ t ∈ f.metaTexts, matchesDuration t = false) → r.duration = []) ∧
      ((∀ t ∈ f.metaTexts, numThenLit ['p', 'l', 'a', 'y'] t = false) → r.plays = []) ∧
      ((∀ t ∈ f.metaTexts, numThenLit ['l', 'i', 'k', 'e'] t = false) → r.likes = []) ∧
      ((∀ t ∈ f.metaTexts, dateOrAgo t = false) → r.created_at = [])) := by
  constructor
  · rw [parse_song_element]
    cases h : fragmentLink f with
    | none => simp
    | some href => simp
  · intro r hr
    rw [parse_song_element] at hr
    cases h : fragmentLink f with
    | none => rw [h] at hr; exact absurd hr (by simp)
    | some href =>
      rw [h] at hr
      simp only [Option.some.injEq] at hr
      subst hr
      refine ⟨rfl, ?_, ?_, ?_, ?_, ?_, ?_, ?_, ?_, ?_, ?_, ?_⟩
      · intro ht
        simp only [ht]
      · intro h1 h2 h3
        simp only [h1, h2, h3, firstPresentText, Option.getD_none]
      · intro hd
        simp only [hd, Option.getD_none]
      · intro htags
        simp only [htags]
      · intro hl
        simp only [hl]
        decide
      · intro hl
        simp only [hl]
        decide
      · intro hi
        simp only [hi]
      · exact fun hm => lastMatching_nil hm
      · exact fun hm => lastMatching_nil hm
      · exact fun hm => lastMatching_nil hm
      · exact fun hm => lastMatching_nil hm

/-- A bare anchor fragment with a song link and empty text everywhere. -/
def c7Frag : Fragment :=
  { isAnchor := true, selfHref := some ['/', 's', 'o', 'n', 'g', '/', 'x'] }

/-- Counterexample to C7 as stated: in a fragment where no title strategy
produces a non-empty match, the returned record's title is the placeholder
`Song 1`, not the empty-string zero value the claim asserts. -/
theorem c7_counterexample :
    firstNonEmptyText [c7Frag.headingText, c7Frag.classTitleText,
      c7Frag.spanSongNameText, some c7Frag.linkText] = none ∧
    (parse_song_element c7Frag 1).map (fun r => r.title) =
      some ['S', 'o', 'n', 'g', ' ', '1'] ∧
    ['S', 'o', 'n', 'g', ' ', '1'] ≠ ([] : List Char) := by
  refine ⟨rfl, ?_, by decide⟩
  decide

/-- Witness for C7: the bare anchor fragment is parsed to a record whose
selector-less fields are zero valued, and a fragment with no link at all is
rejected. -/
theorem c7_parse_song_element_witness :
    parse_song_element { } 1 = none ∧
    (∀ r, parse_song_element c7Frag 1 = some r → r.description = []) := by
  constructor
  · exact (c7_parse_song_element { } 1).1.mpr rfl
  · intro r hr
    exact ((c7_parse_song_element c7Frag 1).2 r hr).2.2.2.1 rfl


/-! ## Playlist foreign key behaviour (C8) -/

/-- Claim C8 evaluation at the failing input: the catalog has no playlists
and no songs, yet `add_to_playlist` with a nonexistent playlist id and a
nonexistent song id returns `True` and inserts an orphan `playlist_songs`
row at position 1.  The schema declares FOREIGN KEY constraints, but
`_get_connection` never issues `PRAGMA foreign_keys = ON`, and SQLite leaves
foreign key enforcement off by default, so no rejection happens at the
foreign-key boundary. -/
theorem c8_foreign_keys_not_enforced :
    (999 : Nat) ∉ emptyDB.playlists ∧
    lookupRow emptyDB ['x'] = none ∧
    add_to_playlist emptyDB 999 ['x'] ['T'] =
      (true, { emptyDB with playlist_songs := [⟨999, ['x'], 1, ['T']⟩] }) := by
  refine ⟨by decide, rfl, by decide⟩

/-! ## Row replacement lemmas (C2, C10) -/

theorem find?_append_of_none {p : SongRow → Bool} {l1 l2 : List SongRow}
    (h : ∀ x ∈ l1, p x = false) :
    List.find? p (l1 ++ l2) = List.find? p l2 := by
  induction l1 with
  | nil => rfl
  | cons a l ih =>
    rw [List.cons_append, List.find?_cons_of_neg _ (by rw [h a (by simp)]; simp)]
    exact ih (fun x hx => h x (List.mem_cons_of_mem a hx))

/-- After a successful `add_song`, the row looked up by the extracted id is
exactly the freshly inserted `INSERT OR REPLACE` row. -/
theorem lookupRow_add_song (db : DB) (r : SongRecord) (now id : List Char)
    (h : extract_song_id r.url = some id) :
    lookupRow (add_song db r now).2 id = some (mkRow r id now) := by
  rw [add_song, h]
  rw [lookupRow]
  have hfilter : ∀ q ∈ db.rows.filter (fun q => !rowConflicts id r.url q),
      (decide (q.id = id)) = false := by
    intro q hq
    have hmem := List.mem_filter.1 hq
    have hconf : rowConflicts id r.url q = false := by
      rcases Bool.eq_false_or_eq_true (rowConflicts id r.url q) with hc | hc
      · rw [hc] at hmem
        exact absurd hmem.2 (by simp)
      · exact hc
    rw [rowConflicts, Bool.or_eq_false_iff] at hconf
    exact hconf.1
  rw [find?_append_of_none hfilter, List.find?_cons_of_pos _ (by simp [mkRow])]

/-- Claim C10: re-importing a song replaces the whole row, and since the
`INSERT OR REPLACE` column list carries only extraction-side columns, every
locally-derived column of the new row is NULL, whatever the previous row
held. -/
theorem c10_reimport_resets_local_fields (db : DB) (r : SongRecord)
    (now id : List Char) (h : extract_song_id r.url = some id) :
    lookupRow (add_song db r now).2 id = some (mkRow r id now) ∧
    (mkRow r id now).local_audio_path = none ∧
    (mkRow r id now).local_cover_path = none ∧
    (mkRow r id now).downloaded_at = none ∧
    (mkRow r id now).file_size = none ∧
    (mkRow r id now).audio_format = none ∧
    (mkRow r id now).bpm = none ∧
    (mkRow r id now).musical_key = none ∧
    (mkRow r id now).energy = none ∧
    (mkRow r id now).waveform_path = none := by
  exact ⟨lookupRow_add_song db r now id h, rfl, rfl, rfl, rfl, rfl, rfl, rfl, rfl, rfl⟩

/-- The 36 character identity used by the concrete import scenarios. -/
def uuidA : List Char := List.replicate 36 'a'

/-- A concrete record whose URL carries `uuidA`. -/
def recA : SongRecord :=
  { title := ['t'], url := ['/', 's', 'o', 'n', 'g', '/'] ++ uuidA }

/-- A catalog holding the row for `uuidA` with populated audio columns. -/
def dbPopulated : DB :=
  { rows := [{ mkRow recA uuidA ['T', '1'] with
      local_audio_path := some ['p'], bpm := some 120, file_size := some 7 }]
    tags := []
    playlists := []
    playlist_songs := [] }

/-- Witness for C10: re-importing `recA` over `dbPopulated` replaces the row
and the replacement has NULL local columns. -/
theorem c10_reimport_resets_local_fields_witness :
    lookupRow (add_song dbPopulated recA ['T', '2']).2 uuidA =
      some (mkRow recA uuidA ['T', '2']) ∧
    (mkRow recA uuidA ['T', '2']).local_audio_path = none ∧
    (mkRow recA uuidA ['T', '2']).bpm = none ∧
    (mkRow recA uuidA ['T', '2']).file_size = none := by
  have h := c10_reimport_resets_local_fields dbPopulated recA ['T', '2'] uuidA
    (by decide)
  exact ⟨h.1, h.2.1, h.2.2.2.2.2.2.1, h.2.2.2.2.1⟩


/-! ## Tag relation lemmas (C2) -/

theorem mem_addRecTags_mono {p : List Char × List Char} (id : List Char) :
    ∀ (tags : List (List Char)) (acc : List (List Char × List Char)),
      p ∈ acc → p ∈ addRecTags acc id tags := by
  intro tags
  induction tags with
  | nil => intro acc h; exact h
  | cons t rest ih =>
    intro acc h
    rw [addRecTags]
    split
    · exact ih (acc ++ [(id, t)]) (List.mem_append_left _ h)
    · exact ih acc h

theorem mem_addRecTags_self {tg id : List Char} :
    ∀ (tags : List (List Char)) (acc : List (List Char × List Char)),
      tg ∈ tags → tg ≠ [] → isVersionTag tg = false →
      (id, tg) ∈ addRecTags acc id tags := by
  intro tags
  induction tags with
  | nil => intro acc h; exact absurd h (by simp)
  | cons t rest ih =>
    intro acc hmem hne hver
    rw [addRecTags]
    rcases List.mem_cons.1 hmem with heq | htail
    · subst heq
      split
      · exact mem_addRecTags_mono id rest _
          (List.mem_append_right _ (List.mem_singleton.2 rfl))
      · rename_i hcond
        have hin : (id, tg) ∈ acc := by
          by_contra hnotin
          exact hcond ⟨hne, hver, hnotin⟩
        exact mem_addRecTags_mono id rest acc hin
    · split
      · exact ih _ htail hne hver
      · exact ih _ htail hne hver

theorem mem_addRecTags_iff {p : List Char × List Char} (id : List Char) :
    ∀ (tags : List (List Char)) (acc : List (List Char × List Char)),
      (p ∈ addRecTags acc id tags ↔
        p ∈ acc ∨ (p.1 = id ∧ p.2 ∈ tags ∧ p.2 ≠ [] ∧ isVersionTag p.2 = false)) := by
  intro tags
  induction tags with
  | nil =>
    intro acc
    rw [addRecTags]
    simp
  | cons t rest ih =>
    intro acc
    constructor
    · intro h
      rw [addRecTags] at h
      by_cases hcond : t ≠ [] ∧ isVersionTag t = false ∧ (id, t) ∉ acc
      · rw [if_pos hcond] at h
        rcases (ih (acc ++ [(id, t)])).1 h with hl | hr
        · rcases List.mem_append.1 hl with ha | hb
          · exact Or.inl ha
          · right
            have hp : p = (id, t) := List.mem_singleton.1 hb
            subst hp
            exact ⟨rfl, List.mem_cons_self t rest, hcond.1, hcond.2.1⟩
        · exact Or.inr ⟨hr.1, List.mem_cons_of_mem t hr.2.1, hr.2.2⟩
      · rw [if_neg hcond] at h
        rcases (ih acc).1 h with hl | hr
        · exact Or.inl hl
        · exact Or.inr ⟨hr.1, List.mem_cons_of_mem t hr.2.1, hr.2.2⟩
    · intro h
      rcases h with hl | hr
      · exact mem_addRecTags_mono id (t :: rest) acc hl
      · obtain ⟨h1, h2, h3, h4⟩ := hr
        have hp : p = (id, p.2) := by
          rw [← h1]
        rw [hp]
        exact mem_addRecTags_self (t :: rest) acc h2 h3 h4

/-- The tag table after a successful `add_song`. -/
theorem add_song_tags (db : DB) (r : SongRecord) (now id : List Char)
    (h : extract_song_id r.url = some id) :
    (add_song db r now).2.tags = addRecTags db.tags id r.tags := by
  rw [add_song, h]

/-- Claim C2 (amended): for overlapping imports of the same identity, scalar
song fields are last-writer-wins (the surviving row is exactly the second
insert's row) and the admissible tags accumulate as a union: the tag
relation for the identity afterwards holds exactly the tags of either record
that are non-empty and not version-like (tags whose first character
lowercases to `v` are diverted to `suno_version` and never enter the tag
relation). -/
theorem c2_last_writer_wins_tag_union (db : DB) (r1 r2 : SongRecord)
    (i t1 t2 : List Char)
    (h1 : extract_song_id r1.url = some i) (h2 : extract_song_id r2.url = some i)
    (hfresh : ∀ tg, (i, tg) ∉ db.tags) :
    lookupRow (add_song (add_song db r1 t1).2 r2 t2).2 i = some (mkRow r2 i t2) ∧
    (∀ tg, (i, tg) ∈ (add_song (add_song db r1 t1).2 r2 t2).2.tags ↔
      (tg ≠ [] ∧ isVersionTag tg = false ∧ (tg ∈ r1.tags ∨ tg ∈ r2.tags))) := by
  constructor
  · exact lookupRow_add_song (add_song db r1 t1).2 r2 t2 i h2
  · intro tg
    rw [add_song_tags _ r2 t2 i h2, add_song_tags db r1 t1 i h1]
    rw [mem_addRecTags_iff i r2.tags, mem_addRecTags_iff i r1.tags]
    constructor
    · rintro ((hdb | hr1) | hr2)
      · exact absurd hdb (hfresh tg)
      · exact ⟨hr1.2.2.1, hr1.2.2.2, Or.inl hr1.2.1⟩
      · exact ⟨hr2.2.2.1, hr2.2.2.2, Or.inr hr2.2.1⟩
    · rintro ⟨hne, hver, hm | hm⟩
      · exact Or.inl (Or.inr ⟨rfl, hm, hne, hver⟩)
      · exact Or.inr ⟨rfl, hm, hne, hver⟩

/-- First record of the overlapping import: tags `vocal` and `b`. -/
def r1V : SongRecord :=
  { url := ['/', 's', 'o', 'n', 'g', '/'] ++ uuidA,
    tags := [['v', 'o', 'c', 'a', 'l'], ['b']] }

/-- Second record of the overlapping import: tags `b` and `c`. -/
def r2V : SongRecord :=
  { url := ['/', 's', 'o', 'n', 'g', '/'] ++ uuidA,
    tags := [['b'], ['c']] }

/-- Counterexample to C2 as stated: importing tags `{vocal, b}` then
`{b, c}` for the same identity leaves the tag relation without `vocal`
(`vocal` begins with `v` and is treated as a version marker), so the
resulting tag set is `{b, c}`, not the union `{vocal, b, c}` the claim
requires for arbitrary tags. -/
theorem c2_counterexample :
    ['v', 'o', 'c', 'a', 'l'] ∈ r1V.tags ∧
    (uuidA, ['v', 'o', 'c', 'a', 'l']) ∉
      (add_song (add_song emptyDB r1V ['T', '1']).2 r2V ['T', '2']).2.tags ∧
    (add_song (add_song emptyDB r1V ['T', '1']).2 r2V ['T', '2']).2.tags =
      [(uuidA, ['b']), (uuidA, ['c'])] := by
  refine ⟨by decide, by decide, by decide⟩

/-- First record of the plain overlapping import: tags `a` and `b`. -/
def r1U : SongRecord :=
  { url := ['/', 's', 'o', 'n', 'g', '/'] ++ uuidA, tags := [['a'], ['b']] }

/-- Second record of the plain overlapping import: tags `b` and `c`. -/
def r2U : SongRecord :=
  { url := ['/', 's', 'o', 'n', 'g', '/'] ++ uuidA, tags := [['b'], ['c']] }

/-- Witness for C2 on concrete records without version-like tags. -/
theorem c2_last_writer_wins_tag_union_witness :
    lookupRow (add_song (add_song emptyDB r1U ['T', '1']).2 r2U ['T', '2']).2 uuidA =
      some (mkRow r2U uuidA ['T', '2']) ∧
    ((uuidA, ['a']) ∈ (add_song (add_song emptyDB r1U ['T', '1']).2 r2U
        ['T', '2']).2.tags ↔
      (['a'] ≠ [] ∧ isVersionTag ['a'] = false ∧
        (['a'] ∈ r1U.tags ∨ ['a'] ∈ r2U.tags))) := by
  have h := c2_last_writer_wins_tag_union emptyDB r1U r2U
    uuidA ['T', '1'] ['T', '2'] (by decide) (by decide)
    (fun tg => List.not_mem_nil (uuidA, tg))
  exact ⟨h.1, h.2 ['a']⟩


/-! ## Batch import characterization (C1)

Proof scaffolding for the idempotence claim: the rows after a batch import
are the surviving old rows (those conflicting with no record of the batch)
followed by the rows the batch inserts, and the tag table is an append-only
fold over the batch. -/

/-- Whether the insert for record `r` (if `r` is importable) conflicts with
row `q` under the `songs` table constraints. -/
def recConflicts (r : SongRecord) (q : SongRow) : Bool :=
  match extract_song_id r.url with
  | none => false
  | some id => rowConflicts id r.url q

/-- Whether any record of the batch conflicts with row `q`. -/
def recBatchConflicts (B : List SongRecord) (q : SongRow) : Bool :=
  B.any (fun r => recConflicts r q)

/-- The rows a batch import appends, in order: each importable record's
fresh row, kept only when no later record of the batch replaces it. -/
def batchRows : List SongRecord → (Nat → List Char) → List SongRow
  | [], _ => []
  | r :: rest, clock =>
      match extract_song_id r.url with
      | none => batchRows rest (fun i => clock (i + 1))
      | some id =>
          (if recBatchConflicts rest (mkRow r id (clock 0)) then []
            else [mkRow r id (clock 0)]) ++ batchRows rest (fun i => clock (i + 1))

/-- The tag-table fold a batch import performs. -/
def tagFold (t : List (List Char × List Char)) : List SongRecord →
    List (List Char × List Char)
  | [] => t
  | r :: rest =>
      match extract_song_id r.url with
      | none => tagFold t rest
      | some id => tagFold (addRecTags t id r.tags) rest

theorem add_song_none (db : DB) (r : SongRecord) (now : List Char)
    (h : extract_song_id r.url = none) : add_song db r now = (false, db) := by
  rw [add_song, h]

theorem add_song_some (db : DB) (r : SongRecord) (now id : List Char)
    (h : extract_song_id r.url = some id) :
    add_song db r now = (true,
      { db with
        rows := (db.rows.filter (fun q => !rowConflicts id r.url q)) ++ [mkRow r id now]
        tags := addRecTags db.tags id r.tags }) := by
  simp only [add_song, h]

theorem importBatch_nil (db : DB) (c : Nat → List Char) :
    importBatch db [] c = db := rfl

theorem importBatch_cons (db : DB) (r : SongRecord) (B : List SongRecord)
    (c : Nat → List Char) :
    importBatch db (r :: B) c =
      importBatch (add_song db r (c 0)).2 B (fun i => c (i + 1)) := rfl

theorem importBatch_playlists (B : List SongRecord) :
    ∀ (db : DB) (c : Nat → List Char),
      (importBatch db B c).playlists = db.playlists ∧
      (importBatch db B c).playlist_songs = db.playlist_songs := by
  induction B with
  | nil => intro db c; exact ⟨rfl, rfl⟩
  | cons r B ih =>
    intro db c
    rw [importBatch_cons]
    cases h : extract_song_id r.url with
    | none => rw [add_song_none db r (c 0) h]; exact ih db _
    | some id =>
      rw [add_song_some db r (c 0) id h]
      exact ih _ _

theorem importBatch_tags (B : List SongRecord) :
    ∀ (db : DB) (c : Nat → List Char),
      (importBatch db B c).tags = tagFold db.tags B := by
  induction B with
  | nil => intro db c; rfl
  | cons r B ih =>
    intro db c
    rw [importBatch_cons, tagFold]
    cases h : extract_song_id r.url with
    | none => rw [add_song_none db r (c 0) h]; exact ih db _
    | some id =>
      rw [add_song_some db r (c 0) id h, ih]

theorem filter_conf_cons {r : SongRecord} {id : List Char}
    (hx : extract_song_id r.url = some id) (B : List SongRecord)
    (l : List SongRow) :
    (l.filter (fun q => !rowConflicts id r.url q)).filter
        (fun q => !recBatchConflicts B q) =
      l.filter (fun q => !recBatchConflicts (r :: B) q) := by
  induction l with
  | nil => rfl
  | cons a l ih =>
    have hrc : recBatchConflicts (r :: B) a =
        (rowConflicts id r.url a || recBatchConflicts B a) := by
      simp [recBatchConflicts, recConflicts, hx, List.any_cons]
    cases h1 : rowConflicts id r.url a <;> cases h2 : recBatchConflicts B a <;>
      simp [List.filter_cons, h1, h2, hrc, ih]

/-- Row characterization of a batch import. -/
theorem importBatch_rows (B : List SongRecord) :
    ∀ (db : DB) (c : Nat → List Char),
      (importBatch db B c).rows =
        db.rows.filter (fun q => !recBatchConflicts B q) ++ batchRows B c := by
  induction B with
  | nil =>
    intro db c
    rw [importBatch_nil, batchRows, List.append_nil]
    have : ∀ q ∈ db.rows, (!recBatchConflicts [] q) = true := by
      intro q _
      simp [recBatchConflicts]
    rw [List.filter_eq_self.2 this]
  | cons r B ih =>
    intro db c
    rw [importBatch_cons, batchRows]
    cases h : extract_song_id r.url with
    | none =>
      rw [add_song_none db r (c 0) h, ih]
      have : db.rows.filter (fun q => !recBatchConflicts B q) =
          db.rows.filter (fun q => !recBatchConflicts (r :: B) q) := by
        apply List.filter_congr
        intro q _
        simp [recBatchConflicts, recConflicts, h, List.any_cons]
      rw [this]
    | some id =>
      rw [add_song_some db r (c 0) id h, ih]
      simp only [List.filter_append, List.append_assoc]
      rw [filter_conf_cons h B]
      congr 1
      rw [List.filter_singleton]
      cases hc : recBatchConflicts B (mkRow r id (c 0)) <;> simp [hc]

/-- Every row a batch inserts is replaced again when the same batch is
re-imported: it conflicts with its own record. -/
theorem batchRows_conflict (B : List SongRecord) :
    ∀ (c : Nat → List Char) (q : SongRow), q ∈ batchRows B c →
      recBatchConflicts B q = true := by
  induction B with
  | nil => intro c q h; exact absurd h (List.not_mem_nil q)
  | cons r B ih =>
    intro c q hq
    rw [batchRows] at hq
    cases h : extract_song_id r.url with
    | none =>
      rw [h] at hq
      have hb := ih _ q hq
      rw [recBatchConflicts] at hb
      rw [recBatchConflicts, List.any_cons, hb, Bool.or_true]
    | some id =>
      rw [h] at hq
      rcases List.mem_append.1 hq with hin | hin
      · have hq2 : q = mkRow r id (c 0) := by
          by_cases hc : recBatchConflicts B (mkRow r id (c 0)) = true
          · rw [if_pos hc] at hin
            exact absurd hin (List.not_mem_nil q)
          · rw [if_neg hc] at hin
            exact List.mem_singleton.1 hin
        subst hq2
        have hr : recConflicts r (mkRow r id (c 0)) = true := by
          simp [recConflicts, h, rowConflicts, mkRow]
        rw [recBatchConflicts, List.any_cons, hr, Bool.true_or]
      · have hb := ih _ q hin
        rw [recBatchConflicts] at hb
        rw [recBatchConflicts, List.any_cons, hb, Bool.or_true]

theorem mem_tagFold_mono {p : List Char × List Char} (B : List SongRecord) :
    ∀ t, p ∈ t → p ∈ tagFold t B := by
  induction B with
  | nil => intro t h; exact h
  | cons r B ih =>
    intro t h
    rw [tagFold]
    cases hx : extract_song_id r.url with
    | none => exact ih t h
    | some id => exact ih _ (mem_addRecTags_mono id r.tags t h)

theorem mem_tagFold_pairs (B : List SongRecord) :
    ∀ t (r : SongRecord) (id tg : List Char), r ∈ B →
      extract_song_id r.url = some id → tg ∈ r.tags → tg ≠ [] →
      isVersionTag tg = false → (id, tg) ∈ tagFold t B := by
  induction B with
  | nil => intro t r id tg h; exact absurd h (List.not_mem_nil r)
  | cons s B ih =>
    intro t r id tg hmem hx htg hne hver
    rw [tagFold]
    rcases List.mem_cons.1 hmem with heq | htail
    · subst heq
      rw [hx]
      exact mem_tagFold_mono B _ (mem_addRecTags_self r.tags t htg hne hver)
    · cases hs : extract_song_id s.url with
      | none => exact ih t r id tg htail hx htg hne hver
      | some id2 => exact ih _ r id tg htail hx htg hne hver

theorem addRecTags_absorbed {id : List Char} :
    ∀ (tags : List (List Char)) (t : List (List Char × List Char)),
      (∀ tg ∈ tags, tg ≠ [] → isVersionTag tg = false → (id, tg) ∈ t) →
      addRecTags t id tags = t := by
  intro tags
  induction tags with
  | nil => intro t _; rfl
  | cons tg rest ih =>
    intro t h
    rw [addRecTags, if_neg]
    · exact ih t (fun u hu => h u (List.mem_cons_of_mem tg hu))
    · rintro ⟨hne, hver, hnot⟩
      exact hnot (h tg (List.mem_cons_self tg rest) hne hver)

theorem tagFold_absorbed (B : List SongRecord) :
    ∀ (T : List (List Char × List Char)),
      (∀ r ∈ B, ∀ id, extract_song_id r.url = some id →
        ∀ tg ∈ r.tags, tg ≠ [] → isVersionTag tg = false → (id, tg) ∈ T) →
      tagFold T B = T := by
  induction B with
  | nil => intro T _; rfl
  | cons r B ih =>
    intro T h
    rw [tagFold]
    cases hx : extract_song_id r.url with
    | none => exact ih T (fun s hs => h s (List.mem_cons_of_mem r hs))
    | some id =>
      show tagFold (addRecTags T id r.tags) B = T
      rw [addRecTags_absorbed r.tags T
        (fun tg htg => h r (List.mem_cons_self r B) id hx tg htg)]
      exact ih T (fun s hs => h s (List.mem_cons_of_mem r hs))

theorem tagFold_tagFold (B : List SongRecord) (t : List (List Char × List Char)) :
    tagFold (tagFold t B) B = tagFold t B := by
  apply tagFold_absorbed
  intro r hr id hx tg htg hne hver
  exact mem_tagFold_pairs B t r id tg hr hx htg hne hver

theorem dbExt {x y : DB} (h1 : x.rows = y.rows) (h2 : x.tags = y.tags)
    (h3 : x.playlists = y.playlists) (h4 : x.playlist_songs = y.playlist_songs) :
    x = y := by
  cases x
  cases y
  simp_all

/-- Claim C1 (amended): importing a batch twice leaves the catalog identical
to a single import performed with the second run's clock: all rows, tag
pairs and tables agree, the only trace of the first run being none - in
particular, with equal clocks the import is literally idempotent.  (As
stated, with the two runs stamping different `extracted_at` values, the
double import differs from the single first import in that column alone.) -/
theorem c1_import_idempotent (db : DB) (B : List SongRecord)
    (c1 c2 : Nat → List Char) :
    importBatch (importBatch db B c1) B c2 = importBatch db B c2 := by
  apply dbExt
  · rw [importBatch_rows, importBatch_rows, importBatch_rows, List.filter_append]
    have hff : (db.rows.filter (fun q => !recBatchConflicts B q)).filter
        (fun q => !recBatchConflicts B q) =
        db.rows.filter (fun q => !recBatchConflicts B q) := by
      apply List.filter_eq_self.2
      intro q hq
      exact (List.mem_filter.1 hq).2
    have hnil : (batchRows B c1).filter (fun q => !recBatchConflicts B q) = [] := by
      apply List.filter_eq_nil_iff.2
      intro q hq
      rw [batchRows_conflict B c1 q hq]
      simp
    rw [hff, hnil, List.append_nil]
  · rw [importBatch_tags, importBatch_tags, importBatch_tags, tagFold_tagFold]
  · rw [(importBatch_playlists B _ c2).1, (importBatch_playlists B _ c1).1,
      (importBatch_playlists B _ c2).1]
  · rw [(importBatch_playlists B _ c2).2, (importBatch_playlists B _ c1).2,
      (importBatch_playlists B _ c2).2]

/-- Clock of the first import run. -/
def clockOne : Nat → List Char := fun _ => ['T', '1']

/-- Clock of the second import run. -/
def clockTwo : Nat → List Char := fun _ => ['T', '2']

/-- Counterexample to C1 as stated: importing the batch `[recA]` twice, at
two different wall-clock readings, does not leave the catalog in the state
of the single first import - the `extracted_at` column carries the second
reading. -/
theorem c1_counterexample :
    importBatch (importBatch emptyDB [recA] clockOne) [recA] clockTwo ≠
      importBatch emptyDB [recA] clockOne ∧
    (lookupRow (importBatch (importBatch emptyDB [recA] clockOne) [recA] clockTwo)
        uuidA).map (fun q => q.extracted_at) = some ['T', '2'] ∧
    (lookupRow (importBatch emptyDB [recA] clockOne) uuidA).map
        (fun q => q.extracted_at) = some ['T', '1'] := by
  refine ⟨by decide, by decide, by decide⟩


/-! ## Pagination lemmas (C4) -/

theorem harvest_snd (page : List (List Char)) :
    ∀ ext, (harvest ext page).2 = ext ++ (harvest ext page).1 := by
  induction page with
  | nil => intro ext; simp [harvest]
  | cons v us ih =>
    intro ext
    by_cases h : v ∈ ext
    · rw [harvest, if_pos h, ih ext]
    · rw [harvest, if_neg h]
      show (harvest (ext ++ [v]) us).2 = ext ++ v :: (harvest (ext ++ [v]) us).1
      rw [ih (ext ++ [v])]
      simp

theorem harvest_mem (page : List (List Char)) :
    ∀ ext u, u ∈ (harvest ext page).1 ↔ (u ∈ page ∧ u ∉ ext) := by
  induction page with
  | nil => intro ext u; simp [harvest]
  | cons v us ih =>
    intro ext u
    by_cases h : v ∈ ext
    · rw [harvest, if_pos h, ih]
      constructor
      · rintro ⟨h1, h2⟩
        exact ⟨List.mem_cons_of_mem v h1, h2⟩
      · rintro ⟨h1, h2⟩
        rcases List.mem_cons.1 h1 with rfl | h1
        · exact absurd h h2
        · exact ⟨h1, h2⟩
    · rw [harvest, if_neg h]
      show u ∈ v :: (harvest (ext ++ [v]) us).1 ↔ _
      rw [List.mem_cons, ih]
      constructor
      · rintro (rfl | ⟨h1, h2⟩)
        · exact ⟨List.mem_cons_self _ _, h⟩
        · refine ⟨List.mem_cons_of_mem v h1, ?_⟩
          intro hu
          exact h2 (List.mem_append_left _ hu)
      · rintro ⟨h1, h2⟩
        rcases List.mem_cons.1 h1 with rfl | h1
        · exact Or.inl rfl
        · by_cases huv : u = v
          · exact Or.inl huv
          · refine Or.inr ⟨h1, ?_⟩
            intro hu
            rcases List.mem_append.1 hu with hx | hx
            · exact h2 hx
            · exact huv (List.mem_singleton.1 hx)

theorem harvest_nodup (page : List (List Char)) :
    ∀ ext, (harvest ext page).1.Nodup := by
  induction page with
  | nil => intro ext; simp [harvest]
  | cons v us ih =>
    intro ext
    by_cases h : v ∈ ext
    · rw [harvest, if_pos h]
      exact ih ext
    · rw [harvest, if_neg h]
      show (v :: (harvest (ext ++ [v]) us).1).Nodup
      refine List.nodup_cons.2 ⟨?_, ih (ext ++ [v])⟩
      intro hv
      have hm := (harvest_mem us (ext ++ [v]) v).1 hv
      exact hm.2 (List.mem_append_right _ (List.mem_singleton.2 rfl))

theorem sameURLSet_false_left {a b : List (List Char)} {u : List Char}
    (h1 : u ∈ a) (h2 : u ∉ b) : sameURLSet a b = false := by
  by_contra h
  rw [Bool.not_eq_false, sameURLSet, Bool.and_eq_true] at h
  have hall := List.all_eq_true.1 h.1 u h1
  rw [decide_eq_true_eq] at hall
  exact h2 hall

theorem sameURLSet_false_right {a b : List (List Char)} {u : List Char}
    (h1 : u ∈ b) (h2 : u ∉ a) : sameURLSet a b = false := by
  by_contra h
  rw [Bool.not_eq_false, sameURLSet, Bool.and_eq_true] at h
  have hall := List.all_eq_true.1 h.2 u h1
  rw [decide_eq_true_eq] at hall
  exact h2 hall

/-- Loop invariant of the pagination loop: entering the iteration for page
`p ≤ N` with the session set holding exactly the URLs of pages below `p`
and the accumulator listing them without duplicates, the loop harvests
pages `p` through `N`, keeps the songs duplicate-free, and visits exactly
`N - p + 1` further pages. -/
theorem tabAux_spec (pages : Nat → List (List Char)) (N maxPages : Nat)
    (hfresh : ∀ p, 1 ≤ p → p ≤ N →
      ∃ u, u ∈ pages p ∧ ∀ q, 1 ≤ q → q < p → u ∉ pages q)
    (hstable : sameURLSet (pages (N + 1)) (pages N) = true)
    (hmax : N ≤ maxPages) :
    ∀ fuel p ext acc, 1 ≤ p → p ≤ N → fuel = maxPages - p + 1 →
      (∀ u, u ∈ ext ↔ ∃ q, 1 ≤ q ∧ q < p ∧ u ∈ pages q) →
      acc.Nodup → (∀ u, u ∈ acc ↔ u ∈ ext) →
      (tabAux pages fuel p ext acc).1.Nodup ∧
      (∀ u, u ∈ (tabAux pages fuel p ext acc).1 ↔
        (u ∈ ext ∨ ∃ q, p ≤ q ∧ q ≤ N ∧ u ∈ pages q)) ∧
      (tabAux pages fuel p ext acc).2.2 = N - p + 1 := by
  intro fuel
  induction fuel with
  | zero =>
    intro p ext acc hp1 hpN hfuel _ _ _
    exfalso
    omega
  | succ fuel ih =>
    intro p ext acc hp1 hpN hfuel hext haccnd hacc
    obtain ⟨w, hw_mem, hw_fresh⟩ := hfresh p hp1 hpN
    have hw_not_ext : w ∉ ext := by
      intro hin
      obtain ⟨q, hq1, hq2, hq3⟩ := (hext w).1 hin
      exact hw_fresh q hq1 hq2 hq3
    have hw_chunk : w ∈ (harvest ext (pages p)).1 :=
      (harvest_mem (pages p) ext w).2 ⟨hw_mem, hw_not_ext⟩
    have hchunk_ne : ¬((harvest ext (pages p)).1 = []) := by
      intro h
      rw [h] at hw_chunk
      exact List.not_mem_nil w hw_chunk
    have hdisj : ∀ u ∈ acc, u ∉ (harvest ext (pages p)).1 := by
      intro u hu hu2
      exact ((harvest_mem (pages p) ext u).1 hu2).2 ((hacc u).1 hu)
    have hnd2 : (acc ++ (harvest ext (pages p)).1).Nodup :=
      List.Nodup.append haccnd (harvest_nodup (pages p) ext) hdisj
    simp only [tabAux]
    rw [if_neg hchunk_ne]
    by_cases hpeq : p = N
    · have hstable2 : sameURLSet (pages (p + 1)) (pages p) = true := by
        rw [hpeq]
        exact hstable
      rw [if_pos hstable2]
      dsimp only
      refine ⟨hnd2, ?_, by omega⟩
      intro u
      rw [List.mem_append, hacc u, harvest_mem]
      constructor
      · rintro (h | ⟨h1, h2⟩)
        · exact Or.inl h
        · exact Or.inr ⟨p, le_refl p, by omega, h1⟩
      · rintro (h | ⟨q, hq1, hq2, hq3⟩)
        · exact Or.inl h
        · have hqp : q = p := by omega
          by_cases hu : u ∈ ext
          · exact Or.inl hu
          · exact Or.inr ⟨hqp ▸ hq3, hu⟩
    · have hplt : p < N := by omega
      have hclick : sameURLSet (pages (p + 1)) (pages p) = false := by
        obtain ⟨w2, hw2a, hw2b⟩ := hfresh (p + 1) (by omega) (by omega)
        exact sameURLSet_false_left hw2a (hw2b p hp1 (by omega))
      rw [if_neg (by rw [hclick]; simp)]
      have hsafe : sameURLSet ext (harvest ext (pages p)).2 = false := by
        refine sameURLSet_false_right (u := w) ?_ hw_not_ext
        rw [harvest_snd]
        exact List.mem_append_right _ hw_chunk
      rw [if_neg (by rw [hsafe]; simp)]
      dsimp only
      have hext2 : ∀ u, u ∈ (harvest ext (pages p)).2 ↔
          ∃ q, 1 ≤ q ∧ q < p + 1 ∧ u ∈ pages q := by
        intro u
        rw [harvest_snd, List.mem_append, harvest_mem]
        constructor
        · rintro (h | ⟨h1, h2⟩)
          · obtain ⟨q, ha, hb, hc⟩ := (hext u).1 h
            exact ⟨q, ha, by omega, hc⟩
          · exact ⟨p, hp1, by omega, h1⟩
        · rintro ⟨q, hq1, hq2, hq3⟩
          by_cases hqp : q < p
          · exact Or.inl ((hext u).2 ⟨q, hq1, hqp, hq3⟩)
          · have hqp2 : q = p := by omega
            by_cases hu : u ∈ ext
            · exact Or.inl hu
            · exact Or.inr ⟨hqp2 ▸ hq3, hu⟩
      have hacc2 : ∀ u, u ∈ acc ++ (harvest ext (pages p)).1 ↔
          u ∈ (harvest ext (pages p)).2 := by
        intro u
        rw [List.mem_append, hacc u, harvest_snd, List.mem_append]
      have hrec := ih (p + 1) (harvest ext (pages p)).2
        (acc ++ (harvest ext (pages p)).1) (by omega) (by omega) (by omega)
        hext2 hnd2 hacc2
      refine ⟨hrec.1, ?_, ?_⟩
      · intro u
        rw [hrec.2.1 u, hext2 u]
        constructor
        · rintro (⟨q, hq1, hq2, hq3⟩ | ⟨q, hq1, hq2, hq3⟩)
          · by_cases hqp : q < p
            · exact Or.inl ((hext u).2 ⟨q, hq1, hqp, hq3⟩)
            · exact Or.inr ⟨q, by omega, by omega, hq3⟩
          · exact Or.inr ⟨q, by omega, hq2, hq3⟩
        · rintro (h | ⟨q, hq1, hq2, hq3⟩)
          · obtain ⟨q, ha, hb, hc⟩ := (hext u).1 h
            exact Or.inl ⟨q, ha, by omega, hc⟩
          · by_cases hqp : q = p
            · exact Or.inl ⟨q, by omega, by omega, hq3⟩
            · exact Or.inr ⟨q, by omega, hq2, hq3⟩
      · rw [hrec.2.2]
        omega

/-- Claim C4: over a simulated paginator whose visible song-detail URL set
keeps changing up to page `N`, with each page up to `N` exposing at least
one URL unseen on every earlier page, and whose URL set stops changing from
page `N` on, the pagination loop harvests exactly pages 1 through `N` - not
fewer, not more, bounded in any case by `maxPages` - and returns the union
of the per-page records with no duplicate identities; in particular, the
next-page click out of page `N` leaves the URL set unchanged and stops the
loop. -/
theorem c4_pagination_termination (pages : Nat → List (List Char))
    (N maxPages : Nat) (hN : 1 ≤ N) (hmax : N ≤ maxPages)
    (hfresh : ∀ p, 1 ≤ p → p ≤ N →
      ∃ u, u ∈ pages p ∧ ∀ q, 1 ≤ q → q < p → u ∉ pages q)
    (hstable : ∀ i, N ≤ i → sameURLSet (pages i) (pages N) = true) :
    (extract_all_pages_for_tab pages maxPages).2.2 = N ∧
    (extract_all_pages_for_tab pages maxPages).1.Nodup ∧
    (∀ u, u ∈ (extract_all_pages_for_tab pages maxPages).1 ↔
      ∃ q, 1 ≤ q ∧ q ≤ N ∧ u ∈ pages q) := by
  have hspec := tabAux_spec pages N maxPages hfresh (hstable (N + 1) (by omega)) hmax
    maxPages 1 [] [] (le_refl 1) hN (by omega)
    (by
      intro u
      constructor
      · intro h
        exact absurd h (List.not_mem_nil u)
      · rintro ⟨q, hq1, hq2, _⟩
        omega)
    List.nodup_nil
    (fun u => Iff.rfl)
  rw [extract_all_pages_for_tab]
  refine ⟨by have h3 := hspec.2.2; omega, hspec.1, ?_⟩
  intro u
  rw [hspec.2.1 u]
  constructor
  · rintro (h | h)
    · exact absurd h (List.not_mem_nil u)
    · exact h
  · intro h
    exact Or.inr h

/-- The two-page simulated paginator of the witness: page 1 shows `a, b`,
every later page shows `b, c`. -/
def c4Pages : Nat → List (List Char) :=
  fun i => if i ≤ 1 then [['a'], ['b']] else [['b'], ['c']]

/-- Witness for C4: the simulated two-page tab is harvested in exactly two
pages, with `{a, b, c}` collected once each. -/
theorem c4_pagination_termination_witness :
    (extract_all_pages_for_tab c4Pages 50).2.2 = 2 ∧
    (extract_all_pages_for_tab c4Pages 50).1.Nodup ∧
    (['a'] ∈ (extract_all_pages_for_tab c4Pages 50).1 ↔
      ∃ q, 1 ≤ q ∧ q ≤ 2 ∧ ['a'] ∈ c4Pages q) := by
  have h := c4_pagination_termination c4Pages 2 50 (by omega) (by omega)
    (by
      intro p h1 h2
      interval_cases p
      · exact ⟨['a'], by decide, fun q hq1 hq2 => by omega⟩
      · refine ⟨['c'], by decide, ?_⟩
        intro q hq1 hq2
        have hq : q = 1 := by omega
        subst hq
        decide)
    (by
      intro i hi
      have hne : ¬(i ≤ 1) := by omega
      show sameURLSet (if i ≤ 1 then [['a'], ['b']] else [['b'], ['c']])
        (c4Pages 2) = true
      rw [if_neg hne]
      decide)
  exact ⟨h.1, h.2.1, h.2.2 ['a']⟩

end Suno
